import Mathlib

/-!
Shallow embedding of the rifflane core (loop-scoring engine, scoring
configuration, SMF lane-chart conversion and chart adapters) together with
proofs about the behaviour of the embedded functions.

Conventions of the embedding:
* JavaScript finite numbers are modelled by `ℚ`; a value that may be a
  non-finite IEEE number (`NaN`, `±Infinity`) is modelled by `JSNum := Option ℚ`
  with `none` standing for any non-finite value.
* Fallible code (TypeScript `throw`) is modelled with `Except String`.
* `Math.round`, `Math.floor`, the JS remainder operator `%` and truncating
  division are modelled explicitly (`jsRound`, `Int.floor`, `jsMod`).
-/

namespace Rifflane

/-- A JavaScript number that may be non-finite: `none` models NaN/±Infinity. -/
abbrev JSNum := Option ℚ

/-- JS `Math.round`: round half toward positive infinity. -/
def jsRound (q : ℚ) : ℤ := ⌊q + 1 / 2⌋

/-- Truncation toward zero, as used by the JS `%` remainder operator. -/
def ratTrunc (q : ℚ) : ℤ := if 0 ≤ q then ⌊q⌋ else ⌈q⌉

/-- The JS remainder operator `a % b` (sign follows the dividend). -/
def jsMod (a b : ℚ) : ℚ := a - b * (ratTrunc (a / b) : ℚ)

/-- `assertFiniteNumber` (scoring/config/chart variants are identical):
fails on a non-finite number, otherwise returns it. -/
def assertFiniteNumber (value : JSNum) (label : String) : Except String ℚ :=
  match value with
  | none => .error (label ++ " must be a finite number.")
  | some q => .ok q

/-- `assertFinitePositive`: finite and strictly positive. -/
def assertFinitePositive (value : JSNum) (label : String) : Except String ℚ := do
  let normalized ← assertFiniteNumber value label
  if normalized ≤ 0 then .error (label ++ " must be > 0.") else .ok normalized

/-- `assertFiniteNonNegative`: finite and non-negative. -/
def assertFiniteNonNegative (value : JSNum) (label : String) : Except String ℚ := do
  let normalized ← assertFiniteNumber value label
  if normalized < 0 then .error (label ++ " must be >= 0.") else .ok normalized

/-- The four scoring lanes (bass strings). -/
inductive Lane
  | E
  | A
  | D
  | G
deriving DecidableEq, Repr

/-- `DEFAULT_OPEN_STRING_MIDI_BY_LANE` (scoring side, values as numbers). -/
def defaultOpenStringMidi : Lane → ℚ
  | .E => 28
  | .A => 33
  | .D => 38
  | .G => 43

/-- A partial per-lane override table (`PartialOpenStringMidiByLane`); each
lane is either absent (`none`) or a possibly non-finite number. -/
structure OpenStringOverrides where
  E : Option JSNum := none
  A : Option JSNum := none
  D : Option JSNum := none
  G : Option JSNum := none
deriving DecidableEq, Repr

/-- Look up one lane of an override table. -/
def OpenStringOverrides.get (overrides : OpenStringOverrides) : Lane → Option JSNum
  | .E => overrides.E
  | .A => overrides.A
  | .D => overrides.D
  | .G => overrides.G

/-- A fully resolved open-string table with rational entries
(`OpenStringMidiByLane`, scoring side). -/
structure OpenStringTableQ where
  E : ℚ
  A : ℚ
  D : ℚ
  G : ℚ
deriving DecidableEq, Repr

/-- Look up one lane of a resolved rational table. -/
def OpenStringTableQ.get (table : OpenStringTableQ) : Lane → ℚ
  | .E => table.E
  | .A => table.A
  | .D => table.D
  | .G => table.G

/-- A fully resolved open-string table with integer entries
(`OpenStringMidiByLane`, chart side, values rounded). -/
structure OpenStringTableZ where
  E : ℤ
  A : ℤ
  D : ℤ
  G : ℤ
deriving DecidableEq, Repr

/-- Look up one lane of a resolved integer table. -/
def OpenStringTableZ.get (table : OpenStringTableZ) : Lane → ℤ
  | .E => table.E
  | .A => table.A
  | .D => table.D
  | .G => table.G

/-- Resolve one lane of the scoring-side open-string table: absent falls back
to the default, present values are checked finite and kept unchanged. -/
def resolveScoringLaneValue (override : Option JSNum) (dflt : ℚ) (label : String) :
    Except String ℚ :=
  match override with
  | none => .ok dflt
  | some v => assertFiniteNumber v label

/-- `resolveOpenStringMidiByLane` from `scoring/pitch.ts`: iterates lanes in
E, A, D, G order; finite override values are kept unchanged. -/
def resolveOpenStringScoring (overrides : OpenStringOverrides) :
    Except String OpenStringTableQ := do
  let e ← resolveScoringLaneValue overrides.E (defaultOpenStringMidi .E) "openStringMidiByLane.E"
  let a ← resolveScoringLaneValue overrides.A (defaultOpenStringMidi .A) "openStringMidiByLane.A"
  let d ← resolveScoringLaneValue overrides.D (defaultOpenStringMidi .D) "openStringMidiByLane.D"
  let g ← resolveScoringLaneValue overrides.G (defaultOpenStringMidi .G) "openStringMidiByLane.G"
  .ok { E := e, A := a, D := d, G := g }

/-- `toMidiNoteFromLaneAndFret`: open-string midi plus fret. -/
def toMidiNoteFromLaneAndFret (lane : Lane) (fret : ℚ) (table : OpenStringTableQ) : ℚ :=
  table.get lane + fret

/-- `toCentsFromMidiNote`: midi note times 100. -/
def toCentsFromMidiNote (midiNote : ℚ) : ℚ := midiNote * 100

/-- The validated scoring configuration (`ScoringConfig`). -/
structure ScoringConfig where
  timingWindowMs : ℚ
  pitchWindowCents : ℚ
  latencyOffsetMs : ℚ
  perfectTimingWindowMs : ℚ
  perfectPitchWindowCents : ℚ
deriving DecidableEq, Repr

/-- Partial config overrides (`Partial<ScoringConfig>`); an absent field is
`none`, a present field carries a possibly non-finite number. -/
structure ScoringConfigOverrides where
  timingWindowMs : Option JSNum := none
  pitchWindowCents : Option JSNum := none
  latencyOffsetMs : Option JSNum := none
  perfectTimingWindowMs : Option JSNum := none
  perfectPitchWindowCents : Option JSNum := none
deriving DecidableEq, Repr

/-- `createScoringConfig`: merge the overrides onto the defaults
(80 / 35 / 0 / 40 / 20), validate each field, then the two cross-field
invariants. -/
def createScoringConfig (overrides : ScoringConfigOverrides := {}) :
    Except String ScoringConfig := do
  let timingWindowMs ←
    assertFinitePositive (overrides.timingWindowMs.getD (some 80)) "timingWindowMs"
  let pitchWindowCents ←
    assertFinitePositive (overrides.pitchWindowCents.getD (some 35)) "pitchWindowCents"
  let latencyOffsetMs ←
    assertFiniteNumber (overrides.latencyOffsetMs.getD (some 0)) "latencyOffsetMs"
  let perfectTimingWindowMs ←
    assertFinitePositive (overrides.perfectTimingWindowMs.getD (some 40)) "perfectTimingWindowMs"
  let perfectPitchWindowCents ←
    assertFinitePositive (overrides.perfectPitchWindowCents.getD (some 20)) "perfectPitchWindowCents"
  if perfectTimingWindowMs > timingWindowMs then
    .error "perfectTimingWindowMs must be <= timingWindowMs."
  else if perfectPitchWindowCents > pitchWindowCents then
    .error "perfectPitchWindowCents must be <= pitchWindowCents."
  else
    .ok {
      timingWindowMs := timingWindowMs
      pitchWindowCents := pitchWindowCents
      latencyOffsetMs := latencyOffsetMs
      perfectTimingWindowMs := perfectTimingWindowMs
      perfectPitchWindowCents := perfectPitchWindowCents
    }

/-- The merged overrides built by `updateConfig`'s object spread
`{...this.config, ...overrides}`: every field of the current config is
present, each override (when present) wins. -/
def mergeConfigOverrides (cfg : ScoringConfig) (o : ScoringConfigOverrides) :
    ScoringConfigOverrides where
  timingWindowMs := some (o.timingWindowMs.getD (some cfg.timingWindowMs))
  pitchWindowCents := some (o.pitchWindowCents.getD (some cfg.pitchWindowCents))
  latencyOffsetMs := some (o.latencyOffsetMs.getD (some cfg.latencyOffsetMs))
  perfectTimingWindowMs := some (o.perfectTimingWindowMs.getD (some cfg.perfectTimingWindowMs))
  perfectPitchWindowCents := some (o.perfectPitchWindowCents.getD (some cfg.perfectPitchWindowCents))

/-- `LoopScoringEngine.updateConfig`: rebuild the config from the merged
overrides, revalidating everything. -/
def updateConfig (cfg : ScoringConfig) (o : ScoringConfigOverrides) :
    Except String ScoringConfig :=
  createScoringConfig (mergeConfigOverrides cfg o)

/-- `LoopScoringEngine.setLatencyOffsetMs`: rebuild the config with only the
latency offset replaced. -/
def setLatencyOffsetMs (cfg : ScoringConfig) (offsetMs : ℚ) :
    Except String ScoringConfig :=
  createScoringConfig (mergeConfigOverrides cfg { latencyOffsetMs := some (some offsetMs) })

/-! ## Loop scoring engine: chart normalization -/

/-- A raw chart note (`LoopScoringNote`): optional fields are `Option`,
`lane` is an arbitrary string validated at normalization.  Values are
modelled as finite numbers (`ℚ`); the source's finiteness assertions are
then identities. -/
structure LoopScoringNote where
  id : Option String := none
  lane : String
  timeMs : ℚ
  durationMs : Option ℚ := none
  fret : Option ℚ := none
  targetMidiNote : Option ℚ := none
  targetCents : Option ℚ := none
deriving DecidableEq, Repr

/-- A raw loop-scoring chart (`LoopScoringChart`). -/
structure LoopScoringChart where
  loopDurationMs : ℚ
  notes : List LoopScoringNote
deriving DecidableEq, Repr

/-- The engine's internal note (`InternalNote`). -/
structure InternalNote where
  id : String
  lane : Lane
  timeMs : ℚ
  durationMs : ℚ
  fret : Option ℚ
  targetMidiNote : ℚ
  targetCents : ℚ
  sourceOrder : ℕ
deriving DecidableEq, Repr

/-- The normalized chart (`NormalizedChart`). -/
structure NormalizedChart where
  loopDurationMs : ℚ
  notes : List InternalNote
deriving DecidableEq, Repr

/-- `wrapTimeMs`: JS remainder then shift negatives into `[0, loopDurationMs)`. -/
def wrapTimeMs (timeMs loopDurationMs : ℚ) : ℚ :=
  let wrapped := jsMod timeMs loopDurationMs
  if wrapped < 0 then wrapped + loopDurationMs else wrapped

/-- `isScoringLane`, returning the parsed lane. -/
def parseLane (value : String) : Option Lane :=
  if value = "E" then some .E
  else if value = "A" then some .A
  else if value = "D" then some .D
  else if value = "G" then some .G
  else none

/-- Normalization of a single raw note (the body of the `map` callback in
`normalizeChart`). -/
def normalizeNote (openStrings : OpenStringTableQ) (loopDurationMs : ℚ) (index : ℕ)
    (rawNote : LoopScoringNote) : Except String InternalNote := do
  match parseLane rawNote.lane with
  | none =>
      .error ("notes[" ++ toString index ++ "].lane is invalid: " ++ rawNote.lane)
  | some lane =>
    let timeMs := wrapTimeMs rawNote.timeMs loopDurationMs
    let durationMs := rawNote.durationMs.getD 0
    if durationMs < 0 then
      .error ("notes[" ++ toString index ++ "].durationMs must be >= 0.")
    else
      let fret := rawNote.fret
      let targetMidiNote0 : Option ℚ :=
        match rawNote.targetMidiNote with
        | some m => some m
        | none => fret.map fun f => toMidiNoteFromLaneAndFret lane f openStrings
      let targetCents0 : Option ℚ :=
        match rawNote.targetCents with
        | some c => some c
        | none => targetMidiNote0.map toCentsFromMidiNote
      match targetCents0 with
      | none =>
          .error ("notes[" ++ toString index ++
            "] requires either targetCents, targetMidiNote, or fret to resolve pitch.")
      | some targetCents =>
        let targetMidiNote := targetMidiNote0.getD (targetCents / 100)
        .ok {
          id :=
            match rawNote.id with
            | some s => if s.trim.length > 0 then s else "note-" ++ toString index
            | none => "note-" ++ toString index
          lane := lane
          timeMs := timeMs
          durationMs := durationMs
          fret := fret
          targetMidiNote := targetMidiNote
          targetCents := targetCents
          sourceOrder := index
        }

/-- Index-carrying traversal of the raw notes. -/
def normalizeNotes (openStrings : OpenStringTableQ) (loopDurationMs : ℚ) :
    ℕ → List LoopScoringNote → Except String (List InternalNote)
  | _, [] => .ok []
  | index, rawNote :: rest => do
      let note ← normalizeNote openStrings loopDurationMs index rawNote
      let notes ← normalizeNotes openStrings loopDurationMs (index + 1) rest
      .ok (note :: notes)

/-- Generic insertion of one element into a sorted list: the new element goes
after every element it does not strictly precede (a stable sort, as JS
`Array.prototype.sort` is). -/
def insertSortedBy (le : α → α → Bool) (x : α) : List α → List α
  | [] => [x]
  | y :: ys => if le y x then y :: insertSortedBy le x ys else x :: y :: ys

/-- Stable insertion sort on a boolean comparator, modelling JS `Array.sort`. -/
def sortListBy (le : α → α → Bool) : List α → List α
  | [] => []
  | x :: xs => insertSortedBy le x (sortListBy le xs)

/-- The final sort of `normalizeChart`: ascending `(timeMs, sourceOrder)`. -/
def noteLE (left right : InternalNote) : Bool :=
  if left.timeMs = right.timeMs then decide (left.sourceOrder ≤ right.sourceOrder)
  else decide (left.timeMs < right.timeMs)

/-- Insertion sort by `(timeMs, sourceOrder)`. -/
def sortNotes (notes : List InternalNote) : List InternalNote :=
  sortListBy noteLE notes

/-- `normalizeChart`. -/
def normalizeChart (chart : LoopScoringChart) (openStrings : OpenStringTableQ) :
    Except String NormalizedChart := do
  if chart.loopDurationMs ≤ 0 then
    .error "loopDurationMs must be > 0."
  else
    let notes ← normalizeNotes openStrings chart.loopDurationMs 0 chart.notes
    .ok { loopDurationMs := chart.loopDurationMs, notes := sortNotes notes }

/-! ## Loop scoring engine: state, events and operations -/

/-- `ScoringJudgement`. -/
inductive Judgement
  | Perfect
  | Good
  | Miss
deriving DecidableEq, Repr

/-- `ScoringEventSource`. -/
inductive EventSource
  | input
  | autoMiss
deriving DecidableEq, Repr

/-- `ScoringEventReason`. -/
inductive EventReason
  | perfectWindow
  | goodWindow
  | pitchWindow
  | timingWindow
  | pitchMissing
  | autoMiss
deriving DecidableEq, Repr

/-- `ScoringEventNote`: the note snapshot embedded in an event. -/
structure ScoringEventNote where
  id : String
  lane : Lane
  fret : Option ℚ
  timeMs : ℚ
  durationMs : ℚ
  targetMidiNote : ℚ
  targetCents : ℚ
  loopIndex : ℕ
  occurrenceTimeMs : ℚ
deriving DecidableEq, Repr

/-- `ScoringEvent`. -/
structure ScoringEvent where
  judgement : Judgement
  source : EventSource
  reason : EventReason
  evaluatedAtMs : ℚ
  adjustedTimeMs : ℚ
  timingErrorMs : Option ℚ
  pitchErrorCents : Option ℚ
  note : ScoringEventNote
deriving DecidableEq, Repr

/-- `ScoringStats`. -/
structure ScoringStats where
  perfect : ℕ
  good : ℕ
  miss : ℕ
  total : ℕ
  accuracy : ℚ
deriving DecidableEq, Repr

/-- `ScoringInput`: `pitchCents` is `some` for a finite pitch sample, `none`
for a missing or non-finite one (the source merges the two cases). -/
structure ScoringInput where
  evaluatedAtMs : ℚ
  pitchCents : Option ℚ := none
  lane : Option Lane := none
deriving DecidableEq, Repr

/-- The engine's mutable state. -/
structure EngineState where
  chart : NormalizedChart
  config : ScoringConfig
  nextLoopIndexByNote : List ℕ
  perfectCount : ℕ
  goodCount : ℕ
  missCount : ℕ
deriving DecidableEq, Repr

/-- `getOccurrenceTimeMs`. -/
def occurrenceTimeMs (loopDurationMs : ℚ) (note : InternalNote) (loopIndex : ℕ) : ℚ :=
  note.timeMs + loopDurationMs * loopIndex

/-- `createEvent` + `createEventNote`. -/
def createEvent (judgement : Judgement) (source : EventSource) (reason : EventReason)
    (evaluatedAtMs adjustedTimeMs : ℚ) (timingErrorMs pitchErrorCents : Option ℚ)
    (note : InternalNote) (loopIndex : ℕ) (occTimeMs : ℚ) : ScoringEvent where
  judgement := judgement
  source := source
  reason := reason
  evaluatedAtMs := evaluatedAtMs
  adjustedTimeMs := adjustedTimeMs
  timingErrorMs := timingErrorMs
  pitchErrorCents := pitchErrorCents
  note := {
    id := note.id
    lane := note.lane
    fret := note.fret
    timeMs := note.timeMs
    durationMs := note.durationMs
    targetMidiNote := note.targetMidiNote
    targetCents := note.targetCents
    loopIndex := loopIndex
    occurrenceTimeMs := occTimeMs
  }

/-- The auto-miss events and new cursor for one note (one iteration of the
loop body of `collectAutoMisses`). -/
def autoMissForNote (cfg : ScoringConfig) (loopDurationMs : ℚ)
    (evaluatedAtMs adjustedTimeMs : ℚ) (note : InternalNote) (cursor : ℕ) :
    List ScoringEvent × ℕ :=
  let missThresholdTimeMs := adjustedTimeMs - cfg.timingWindowMs
  let firstOccurrenceTimeMs := occurrenceTimeMs loopDurationMs note cursor
  if firstOccurrenceTimeMs > missThresholdTimeMs then ([], cursor)
  else
    let loopCountToMiss : ℕ :=
      (⌊(missThresholdTimeMs - firstOccurrenceTimeMs) / loopDurationMs⌋ + 1).toNat
    ((List.range loopCountToMiss).map fun offset =>
        let loopIndex := cursor + offset
        let occ := occurrenceTimeMs loopDurationMs note loopIndex
        createEvent .Miss .autoMiss .autoMiss evaluatedAtMs adjustedTimeMs
          (some (adjustedTimeMs - occ)) none note loopIndex occ,
      cursor + loopCountToMiss)

/-- The auto-miss sweep over the zipped (note, cursor) list, producing the
events in note order together with the new cursor list. -/
def collectAutoMissesAux (cfg : ScoringConfig) (loopDurationMs : ℚ)
    (evaluatedAtMs adjustedTimeMs : ℚ) :
    List (InternalNote × ℕ) → List ScoringEvent × List ℕ
  | [] => ([], [])
  | (note, cursor) :: rest =>
      let head := autoMissForNote cfg loopDurationMs evaluatedAtMs adjustedTimeMs note cursor
      let tail := collectAutoMissesAux cfg loopDurationMs evaluatedAtMs adjustedTimeMs rest
      (head.1 ++ tail.1, head.2 :: tail.2)

/-- `registerJudgement`: increment the matching counter. -/
def registerJudgement (st : EngineState) (judgement : Judgement) : EngineState :=
  match judgement with
  | .Perfect => { st with perfectCount := st.perfectCount + 1 }
  | .Good => { st with goodCount := st.goodCount + 1 }
  | .Miss => { st with missCount := st.missCount + 1 }

/-- Fold `registerJudgement` across the judgements of a list of events. -/
def registerAll (st : EngineState) : List ScoringEvent → EngineState
  | [] => st
  | event :: rest => registerAll (registerJudgement st event.judgement) rest

/-- `collectAutoMisses`: events plus the state with advanced cursors and
registered Miss judgements. -/
def collectAutoMisses (st : EngineState) (evaluatedAtMs adjustedTimeMs : ℚ) :
    List ScoringEvent × EngineState :=
  let swept := collectAutoMissesAux st.config st.chart.loopDurationMs
    evaluatedAtMs adjustedTimeMs (st.chart.notes.zip st.nextLoopIndexByNote)
  (swept.1, registerAll { st with nextLoopIndexByNote := swept.2 } swept.1)

/-- A match candidate (`Candidate`), with the note and its `sourceOrder`
carried alongside the index for convenience. -/
structure Candidate where
  noteIndex : ℕ
  note : InternalNote
  loopIndex : ℕ
  occurrenceTimeMs : ℚ
  timingErrorMs : ℚ
  absTimingErrorMs : ℚ
deriving DecidableEq, Repr

/-- The candidate derived from one (index, note, cursor) entry. -/
def candidateAt (loopDurationMs adjustedTimeMs : ℚ) (index : ℕ)
    (note : InternalNote) (cursor : ℕ) : Candidate :=
  let occ := occurrenceTimeMs loopDurationMs note cursor
  let err := adjustedTimeMs - occ
  { noteIndex := index
    note := note
    loopIndex := cursor
    occurrenceTimeMs := occ
    timingErrorMs := err
    absTimingErrorMs := |err| }

/-- The replace-or-keep decision of `findBestCandidate`'s loop body:
strictly smaller `absTimingErrorMs` wins; on a tie, strictly smaller
`occurrenceTimeMs` wins; on a further tie, strictly smaller `sourceOrder`
wins; otherwise the incumbent is kept. -/
def betterCandidate (best cand : Candidate) : Candidate :=
  if cand.absTimingErrorMs < best.absTimingErrorMs then cand
  else if cand.absTimingErrorMs > best.absTimingErrorMs then best
  else if cand.occurrenceTimeMs < best.occurrenceTimeMs then cand
  else if cand.occurrenceTimeMs = best.occurrenceTimeMs ∧
      cand.note.sourceOrder < best.note.sourceOrder then cand
  else best

/-- Whether an entry passes the lane filter. -/
def laneMatches (laneFilter : Option Lane) (note : InternalNote) : Bool :=
  match laneFilter with
  | none => true
  | some lf => decide (note.lane = lf)

/-- The scan of `findBestCandidate` over indexed (note, cursor) entries. -/
def findBestAux (cfg : ScoringConfig) (loopDurationMs adjustedTimeMs : ℚ)
    (laneFilter : Option Lane) :
    ℕ → List (InternalNote × ℕ) → Option Candidate → Option Candidate
  | _, [], best => best
  | index, (note, cursor) :: rest, best =>
      if laneMatches laneFilter note then
        let cand := candidateAt loopDurationMs adjustedTimeMs index note cursor
        if cand.absTimingErrorMs > cfg.timingWindowMs then
          findBestAux cfg loopDurationMs adjustedTimeMs laneFilter (index + 1) rest best
        else
          match best with
          | none =>
              findBestAux cfg loopDurationMs adjustedTimeMs laneFilter (index + 1) rest (some cand)
          | some b =>
              findBestAux cfg loopDurationMs adjustedTimeMs laneFilter (index + 1) rest
                (some (betterCandidate b cand))
      else
        findBestAux cfg loopDurationMs adjustedTimeMs laneFilter (index + 1) rest best

/-- `findBestCandidate`. -/
def findBestCandidate (st : EngineState) (adjustedTimeMs : ℚ)
    (laneFilter : Option Lane) : Option Candidate :=
  findBestAux st.config st.chart.loopDurationMs adjustedTimeMs laneFilter 0
    (st.chart.notes.zip st.nextLoopIndexByNote) none

/-- `evaluate`: auto-miss sweep, candidate search, cursor advancement and
judgement. -/
def evaluate (st : EngineState) (input : ScoringInput) :
    List ScoringEvent × EngineState :=
  let adjustedTimeMs := input.evaluatedAtMs + st.config.latencyOffsetMs
  let swept := collectAutoMisses st input.evaluatedAtMs adjustedTimeMs
  let events := swept.1
  let st1 := swept.2
  match findBestCandidate st1 adjustedTimeMs input.lane with
  | none => (events, st1)
  | some candidate =>
    let note := candidate.note
    let st2 := { st1 with
      nextLoopIndexByNote := st1.nextLoopIndexByNote.set candidate.noteIndex
        (candidate.loopIndex + 1) }
    match input.pitchCents with
    | none =>
        let missEvent := createEvent .Miss .input .pitchMissing input.evaluatedAtMs
          adjustedTimeMs (some candidate.timingErrorMs) none note candidate.loopIndex
          candidate.occurrenceTimeMs
        (events ++ [missEvent], registerJudgement st2 missEvent.judgement)
    | some pitchCents =>
        let pitchErrorCents := pitchCents - note.targetCents
        let absPitchErrorCents := |pitchErrorCents|
        let absTimingErrorMs := candidate.absTimingErrorMs
        let judged : Judgement × EventReason :=
          if absTimingErrorMs ≤ st2.config.perfectTimingWindowMs ∧
              absPitchErrorCents ≤ st2.config.perfectPitchWindowCents then
            (.Perfect, .perfectWindow)
          else if absTimingErrorMs ≤ st2.config.timingWindowMs ∧
              absPitchErrorCents ≤ st2.config.pitchWindowCents then
            (.Good, .goodWindow)
          else if absPitchErrorCents > st2.config.pitchWindowCents then
            (.Miss, .pitchWindow)
          else
            (.Miss, .timingWindow)
        let event := createEvent judged.1 .input judged.2 input.evaluatedAtMs
          adjustedTimeMs (some candidate.timingErrorMs) (some pitchErrorCents) note
          candidate.loopIndex candidate.occurrenceTimeMs
        (events ++ [event], registerJudgement st2 judged.1)

/-- `advance`: latency adjustment plus the auto-miss sweep only. -/
def advance (st : EngineState) (evaluatedAtMs : ℚ) :
    List ScoringEvent × EngineState :=
  collectAutoMisses st evaluatedAtMs (evaluatedAtMs + st.config.latencyOffsetMs)

/-- `getStats`. -/
def getStats (st : EngineState) : ScoringStats :=
  let total := st.perfectCount + st.goodCount + st.missCount
  { perfect := st.perfectCount
    good := st.goodCount
    miss := st.missCount
    total := total
    accuracy :=
      if total = 0 then 0
      else ((st.perfectCount : ℚ) + (st.goodCount : ℚ) * (1 / 2)) / (total : ℚ) }

/-- Engine construction options (`LoopScoringEngineOptions`). -/
structure LoopScoringEngineOptions where
  chart : LoopScoringChart
  config : ScoringConfigOverrides := {}
  openStringMidiByLane : OpenStringOverrides := {}

/-- The `LoopScoringEngine` constructor. -/
def createEngine (options : LoopScoringEngineOptions) : Except String EngineState := do
  let openStrings ← resolveOpenStringScoring options.openStringMidiByLane
  let config ← createScoringConfig options.config
  let chart ← normalizeChart options.chart openStrings
  .ok {
    chart := chart
    config := config
    nextLoopIndexByNote := List.replicate chart.notes.length 0
    perfectCount := 0
    goodCount := 0
    missCount := 0
  }

/-! ## SMF parsing and lane-chart conversion (`chart/midi.ts`) -/

/-- `MidiChartErrorCode`. -/
inductive MidiErrorCode
  | smfParseFailed
  | invalidOptions
  | trackNotFound
  | noteOutOfRange
deriving DecidableEq, Repr

/-- `MidiChartError`. -/
structure MidiChartError where
  code : MidiErrorCode
  message : String
deriving DecidableEq, Repr

/-- A parsed note (`ParsedSmfTrackNote`). -/
structure ParsedSmfTrackNote where
  midi : ℤ
  timeMs : ℚ
  durationMs : ℚ
deriving DecidableEq, Repr

/-- A parsed track (`ParsedSmfTrack`, merged with its summary). -/
structure ParsedSmfTrack where
  index : ℕ
  name : String
  noteCount : ℕ
  notes : List ParsedSmfTrackNote
deriving DecidableEq, Repr

/-- A parsed SMF (`ParsedSmf`). -/
structure ParsedSmf where
  bpm : ℚ
  tracks : List ParsedSmfTrack
deriving DecidableEq, Repr

/-- The note data handed over by the external `@tonejs/midi` decoder: midi
number, on-time and duration in seconds, each possibly non-finite. -/
structure DecodedNote where
  midi : JSNum
  time : JSNum
  duration : JSNum
deriving DecidableEq, Repr

/-- A decoded track from the external decoder. -/
structure DecodedTrack where
  name : String
  notes : List DecodedNote
deriving DecidableEq, Repr

/-- A decoded SMF container from the external decoder (tempos as bpm values). -/
structure DecodedMidi where
  tempos : List JSNum
  tracks : List DecodedTrack
deriving DecidableEq, Repr

/-- `normalizeMidiNote`: finite, rounded, within `[0, 127]`. -/
def normalizeMidiNote (midiNote : JSNum) (trackIndex noteIndex : ℕ) :
    Except String ℤ := do
  let value ← assertFiniteNumber midiNote
    ("tracks[" ++ toString trackIndex ++ "].notes[" ++ toString noteIndex ++ "].midi")
  let normalized := jsRound value
  if normalized < 0 ∨ normalized > 127 then
    .error ("tracks[" ++ toString trackIndex ++ "].notes[" ++ toString noteIndex ++
      "].midi must be in the 0-127 range.")
  else
    .ok normalized

/-- `secondsToMs`: non-finite fails; a value `≤ 0` is clamped to `0` before
rounding; otherwise seconds are converted to rounded milliseconds. -/
def secondsToMs (seconds : JSNum) (label : String) : Except String ℚ := do
  let value ← assertFiniteNumber seconds label
  if value ≤ 0 then .ok 0
  else .ok ((jsRound (value * 1000) : ℤ) : ℚ)

/-- `normalizeTrackName`. -/
def normalizeTrackName (name : String) (index : ℕ) : String :=
  if name.trim.length > 0 then name.trim else "Track " ++ toString (index + 1)

/-- `deriveBpm`: the first tempo when finite and positive, else 120. -/
def deriveBpm (tempos : List JSNum) : ℚ :=
  match tempos.head? with
  | some (some bpm) => if bpm > 0 then bpm else 120
  | _ => 120

/-- `compareParsedNotes` as a (non-strict) order: `(timeMs, durationMs, midi)`
lexicographic. -/
def parsedNoteLE (left right : ParsedSmfTrackNote) : Bool :=
  if left.timeMs = right.timeMs then
    if left.durationMs = right.durationMs then decide (left.midi ≤ right.midi)
    else decide (left.durationMs < right.durationMs)
  else decide (left.timeMs < right.timeMs)

/-- The per-note body of the track mapping in `parseSmfFromArrayBuffer`. -/
def parseDecodedNotes (trackIndex : ℕ) :
    ℕ → List DecodedNote → Except String (List ParsedSmfTrackNote)
  | _, [] => .ok []
  | noteIndex, note :: rest => do
      let midi ← normalizeMidiNote note.midi trackIndex noteIndex
      let timeMs ← secondsToMs note.time
        ("tracks[" ++ toString trackIndex ++ "].notes[" ++ toString noteIndex ++ "].time")
      let durationMs ← secondsToMs note.duration
        ("tracks[" ++ toString trackIndex ++ "].notes[" ++ toString noteIndex ++ "].duration")
      let parsed ← parseDecodedNotes trackIndex (noteIndex + 1) rest
      .ok ({ midi := midi, timeMs := timeMs, durationMs := durationMs } :: parsed)

/-- The per-track body of the mapping in `parseSmfFromArrayBuffer`. -/
def parseDecodedTracks : ℕ → List DecodedTrack → Except String (List ParsedSmfTrack)
  | _, [] => .ok []
  | trackIndex, track :: rest => do
      let notes ← parseDecodedNotes trackIndex 0 track.notes
      let sorted := sortListBy parsedNoteLE notes
      let parsed ← parseDecodedTracks (trackIndex + 1) rest
      .ok ({ index := trackIndex
             name := normalizeTrackName track.name trackIndex
             noteCount := sorted.length
             notes := sorted } :: parsed)

/-- `parseSmfFromArrayBuffer` after the external binary decode: any thrown
error is caught and wrapped as `SMF_PARSE_FAILED`. -/
def parseDecodedMidi (decoded : DecodedMidi) : Except MidiChartError ParsedSmf :=
  match parseDecodedTracks 0 decoded.tracks with
  | .error message =>
      .error { code := .smfParseFailed
               message := "Failed to parse Standard MIDI File (SMF): " ++ message }
  | .ok tracks => .ok { bpm := deriveBpm decoded.tempos, tracks := tracks }

/-- Chart-side `resolveOpenStringMidiByLane` (`chart/midi.ts`): finite
override values are rounded with `Math.round`. -/
def resolveChartLaneValue (override : Option JSNum) (dflt : ℤ) (label : String) :
    Except String ℤ :=
  match override with
  | none => .ok dflt
  | some v => do
      let q ← assertFiniteNumber v label
      .ok (jsRound q)

/-- Chart-side `resolveOpenStringMidiByLane` continued. -/
def resolveOpenStringChart (overrides : OpenStringOverrides) :
    Except String OpenStringTableZ := do
  let e ← resolveChartLaneValue overrides.E 28 "openStringMidiByLane.E"
  let a ← resolveChartLaneValue overrides.A 33 "openStringMidiByLane.A"
  let d ← resolveChartLaneValue overrides.D 38 "openStringMidiByLane.D"
  let g ← resolveChartLaneValue overrides.G 43 "openStringMidiByLane.G"
  .ok { E := e, A := a, D := d, G := g }

/-- `resolveMaxFret`: `none` models the absent option (positive infinity);
present values must be finite and `≥ 0` and are floored. -/
def resolveMaxFret (maxFret : Option JSNum) : Except String (Option ℤ) :=
  match maxFret with
  | none => .ok none
  | some v => do
      let q ← assertFiniteNumber v "maxFret"
      if q < 0 then .error "maxFret must be >= 0."
      else .ok (some ⌊q⌋)

/-- `fret > maxFret` with `none` as positive infinity. -/
def fretExceedsMax (fret : ℤ) : Option ℤ → Bool
  | none => false
  | some maxFret => decide (fret > maxFret)

/-- `BASS_LANE_ORDER`. -/
def bassLaneOrder : List Lane := [.E, .A, .D, .G]

/-- `LANE_ORDER_INDEX`. -/
def laneOrderIndex : Lane → ℕ
  | .E => 0
  | .A => 1
  | .D => 2
  | .G => 3

/-- The scan of `resolveLaneAndFret` over the four lanes, keeping the
smallest admissible fret (first lane wins ties). -/
def resolveLaneAndFretAux (midiNote : ℤ) (openStrings : OpenStringTableZ)
    (maxFret : Option ℤ) : List Lane → Option (Lane × ℤ) → Option (Lane × ℤ)
  | [], best => best
  | lane :: rest, best =>
      let fret := midiNote - openStrings.get lane
      if fret < 0 ∨ fretExceedsMax fret maxFret then
        resolveLaneAndFretAux midiNote openStrings maxFret rest best
      else
        match best with
        | none => resolveLaneAndFretAux midiNote openStrings maxFret rest (some (lane, fret))
        | some b =>
            if fret < b.2 then
              resolveLaneAndFretAux midiNote openStrings maxFret rest (some (lane, fret))
            else
              resolveLaneAndFretAux midiNote openStrings maxFret rest best

/-- `resolveLaneAndFret`. -/
def resolveLaneAndFret (midiNote : ℤ) (openStrings : OpenStringTableZ)
    (maxFret : Option ℤ) : Option (Lane × ℤ) :=
  resolveLaneAndFretAux midiNote openStrings maxFret bassLaneOrder none

/-- A lane-chart note (`ChartNote`). -/
structure ChartNote where
  lane : Lane
  fret : ℤ
  timeMs : ℚ
  durationMs : ℚ
deriving DecidableEq, Repr

/-- `compareChartNotes` as a (non-strict) order:
`(timeMs, durationMs, fret, laneOrderIndex)` lexicographic. -/
def chartNoteLE (left right : ChartNote) : Bool :=
  if left.timeMs = right.timeMs then
    if left.durationMs = right.durationMs then
      if left.fret = right.fret then
        decide (laneOrderIndex left.lane ≤ laneOrderIndex right.lane)
      else decide (left.fret < right.fret)
    else decide (left.durationMs < right.durationMs)
  else decide (left.timeMs < right.timeMs)

/-- `deriveLoopDurationMs` (`chart/midi.ts`): at least 1, rounded up to cover
the latest note's end, with negative times and durations clamped to 0. -/
def deriveLoopDurationMsMidi (notes : List ChartNote) : ℤ :=
  max 1 ⌈notes.foldl (fun acc note => max acc (max 0 note.timeMs + max 0 note.durationMs)) 0⌉

/-- `SmfTrackLaneChart` (with the track summary inlined). -/
structure SmfTrackLaneChart where
  bpm : ℚ
  trackIndex : ℕ
  trackName : String
  trackNoteCount : ℕ
  loopDurationMs : ℚ
  notes : List ChartNote
deriving DecidableEq, Repr

/-- `ConvertSmfTrackToLaneChartOptions`. -/
structure ConvertOptions where
  openStringMidiByLane : OpenStringOverrides := {}
  maxFret : Option JSNum := none

/-- A model of JS `String(value)` for numbers: integers render without a
fraction, non-finite values render as their JS name (collapsed to `NaN`). -/
def jsNumToString : JSNum → String
  | none => "NaN"
  | some q => if q.den = 1 then toString q.num else toString q

/-- `Number.isInteger(trackIndex) && trackIndex >= 0`, yielding the index. -/
def parseTrackIndex (trackIndex : JSNum) : Option ℕ :=
  match trackIndex with
  | none => none
  | some q => if q.den = 1 ∧ 0 ≤ q then some q.num.toNat else none

/-- The per-note conversion loop of `convertSmfTrackToLaneChart`. -/
def convertTrackNotes (trackIdx : ℕ) (openStrings : OpenStringTableZ) (maxFret : Option ℤ) :
    ℕ → List ParsedSmfTrackNote → Except MidiChartError (List ChartNote)
  | _, [] => .ok []
  | noteIndex, sourceNote :: rest =>
      match resolveLaneAndFret sourceNote.midi openStrings maxFret with
      | none =>
          .error { code := .noteOutOfRange
                   message := "Track " ++ toString trackIdx ++ " note " ++ toString noteIndex ++
                     " (midi=" ++ toString sourceNote.midi ++ ", timeMs=" ++
                     toString sourceNote.timeMs ++ ") cannot be mapped to E/A/D/G lanes." }
      | some laneAndFret => do
          let converted ← convertTrackNotes trackIdx openStrings maxFret (noteIndex + 1) rest
          .ok ({ lane := laneAndFret.1
                 fret := laneAndFret.2
                 timeMs := sourceNote.timeMs
                 durationMs := sourceNote.durationMs } :: converted)

/-- `convertSmfTrackToLaneChart`. -/
def convertSmfTrackToLaneChart (parsedSmf : ParsedSmf) (trackIndex : JSNum)
    (options : ConvertOptions := {}) : Except MidiChartError SmfTrackLaneChart :=
  match parseTrackIndex trackIndex with
  | none =>
      .error { code := .trackNotFound
               message := "Track index must be a non-negative integer. Received: " ++
                 jsNumToString trackIndex ++ "." }
  | some idx =>
    match parsedSmf.tracks.find? (fun candidate => candidate.index = idx) with
    | none =>
        .error { code := .trackNotFound
                 message := "Track index " ++ toString idx ++ " was not found." }
    | some track =>
      match (do
          let openStrings ← resolveOpenStringChart options.openStringMidiByLane
          let maxFret ← resolveMaxFret options.maxFret
          pure (openStrings, maxFret) : Except String (OpenStringTableZ × Option ℤ)) with
      | .error message => .error { code := .invalidOptions, message := message }
      | .ok resolved => do
          let notes ← convertTrackNotes track.index resolved.1 resolved.2 0 track.notes
          let sorted := sortListBy chartNoteLE notes
          .ok { bpm := parsedSmf.bpm
                trackIndex := track.index
                trackName := track.name
                trackNoteCount := track.noteCount
                loopDurationMs := ((deriveLoopDurationMsMidi sorted : ℤ) : ℚ)
                notes := sorted }

/-! ## Chart adapters (`scoring/adapters`) -/

/-- A flat chart-data note (`ChartDataLikeNote`). -/
structure ChartDataNote where
  lane : Lane
  fret : ℚ
  timeMs : ℚ
  durationMs : ℚ
deriving DecidableEq, Repr

/-- `ChartDataAdapterOptions`. -/
structure ChartDataAdapterOptions where
  openStringMidiByLane : OpenStringOverrides := {}
  loopDurationMs : Option JSNum := none

/-- The `reduce` in the adapter-side `deriveLoopDurationMs`: running maximum
of `timeMs + durationMs` starting from 0, validating each duration. -/
def adapterMaxEnd : ℕ → ℚ → List ChartDataNote → Except String ℚ
  | _, acc, [] => .ok acc
  | index, acc, note :: rest =>
      if note.durationMs < 0 then
        .error ("notes[" ++ toString index ++ "].durationMs must be >= 0.")
      else adapterMaxEnd (index + 1) (max acc (note.timeMs + note.durationMs)) rest

/-- Adapter-side `deriveLoopDurationMs` (`scoring/adapters`): no ceiling, no
clamping of negative times. -/
def deriveLoopDurationMsAdapters (notes : List ChartDataNote) : Except String ℚ := do
  let maxEndTimeMs ← adapterMaxEnd 0 0 notes
  .ok (max 1 maxEndTimeMs)

/-- Render a lane back to its string form. -/
def laneToString : Lane → String
  | .E => "E"
  | .A => "A"
  | .D => "D"
  | .G => "G"

/-- The note mapping of `createLoopScoringChartFromChartData`. -/
def adapterChartNotes (openStrings : OpenStringTableQ) :
    ℕ → List ChartDataNote → Except String (List LoopScoringNote)
  | _, [] => .ok []
  | index, note :: rest =>
      if note.durationMs < 0 then
        .error ("notes[" ++ toString index ++ "].durationMs must be >= 0.")
      else do
        let targetMidiNote := toMidiNoteFromLaneAndFret note.lane note.fret openStrings
        let mapped ← adapterChartNotes openStrings (index + 1) rest
        .ok ({ id := some ("chart-" ++ toString index)
               lane := laneToString note.lane
               timeMs := note.timeMs
               durationMs := some note.durationMs
               fret := some note.fret
               targetMidiNote := some targetMidiNote
               targetCents := some (toCentsFromMidiNote targetMidiNote) } :: mapped)

/-- `createLoopScoringChartFromChartData`: derives `loopDurationMs` when the
option is absent, otherwise validates the supplied value. -/
def createLoopScoringChartFromChartData (notes : List ChartDataNote)
    (options : ChartDataAdapterOptions := {}) : Except String LoopScoringChart := do
  let openStrings ← resolveOpenStringScoring options.openStringMidiByLane
  let loopDurationMs ←
    match options.loopDurationMs with
    | none => deriveLoopDurationMsAdapters notes
    | some v => assertFinitePositive v "loopDurationMs"
  let mapped ← adapterChartNotes openStrings 0 notes
  .ok { loopDurationMs := loopDurationMs, notes := mapped }

/-! ## Specification-side definitions and concrete scenario data -/

/-- The loop-duration rule of the SMF lane-chart conversion as claimed for the
chart-data adapter: `max(1, ceil(max over notes of (max(0,timeMs) +
max(0,durationMs))))`, stated over the adapter's input notes.  This follows the
specification's words and is compared against the adapter's actual rule. -/
def smfLoopDurationRule (notes : List ChartDataNote) : ℚ :=
  ((max 1 ⌈notes.foldl
      (fun acc note => max acc (max 0 note.timeMs + max 0 note.durationMs)) 0⌉ : ℤ) : ℚ)

/-- The specification's scenario chart:
`{loopDurationMs: 2000, notes: [{lane:'E', timeMs:1000, durationMs:120, fret:0}]}`. -/
def scenarioChart : LoopScoringChart where
  loopDurationMs := 2000
  notes := [{ lane := "E", timeMs := 1000, durationMs := some 120, fret := some 0 }]

/-- The engine state produced by constructing an engine on `scenarioChart`
with the default configuration. -/
def scenarioState : EngineState where
  chart := {
    loopDurationMs := 2000
    notes := [{
      id := "note-0"
      lane := .E
      timeMs := 1000
      durationMs := 120
      fret := some 0
      targetMidiNote := 28
      targetCents := 2800
      sourceOrder := 0 }] }
  config := {
    timingWindowMs := 80
    pitchWindowCents := 35
    latencyOffsetMs := 0
    perfectTimingWindowMs := 40
    perfectPitchWindowCents := 20 }
  nextLoopIndexByNote := [0]
  perfectCount := 0
  goodCount := 0
  missCount := 0

/-- The default chart-side open-string table (`DEFAULT_OPEN_STRING_MIDI_BY_LANE`). -/
def defaultOpenStringTableZ : OpenStringTableZ where
  E := 28
  A := 33
  D := 38
  G := 43

/-- A decoded SMF with a single note whose on-time is non-finite. -/
def nonFiniteTimeDecoded : DecodedMidi where
  tempos := []
  tracks := [{ name := "t", notes := [{ midi := some 28, time := none, duration := some 1 }] }]

/-- A decoded SMF with a single note whose on-time is -1 seconds (finite). -/
def negativeTimeDecoded : DecodedMidi where
  tempos := []
  tracks := [{ name := "t", notes := [{ midi := some 28, time := some (-1), duration := some 1 }] }]

/-- Lexicographic better-or-equal on candidates, as used for the best-match
selection: strictly smaller `absTimingErrorMs` wins, ties fall to the earlier
`occurrenceTimeMs`, remaining ties to the smaller `sourceOrder`. -/
def lexLe (c d : Candidate) : Prop :=
  c.absTimingErrorMs < d.absTimingErrorMs ∨
    (c.absTimingErrorMs = d.absTimingErrorMs ∧
      (c.occurrenceTimeMs < d.occurrenceTimeMs ∨
        (c.occurrenceTimeMs = d.occurrenceTimeMs ∧ c.note.sourceOrder ≤ d.note.sourceOrder)))

/-- Candidate eligibility within a list of (note, cursor) entries whose
indices are offset by `start`: the candidate arises from one entry, passes
the lane filter, and its absolute timing error is within the timing window. -/
def eligibleIn (cfg : ScoringConfig) (L adj : ℚ) (lf : Option Lane)
    (entries : List (InternalNote × ℕ)) (start : ℕ) (c : Candidate) : Prop :=
  ∃ (j : ℕ) (note : InternalNote) (cursor : ℕ),
    entries.get? j = some (note, cursor) ∧ laneMatches lf note = true ∧
    c = candidateAt L adj (start + j) note cursor ∧
    c.absTimingErrorMs ≤ cfg.timingWindowMs

/-- Candidate eligibility for an engine state: the candidate is a chart
note's next unresolved occurrence within the timing window, respecting the
lane filter. -/
def eligible (st : EngineState) (adj : ℚ) (lf : Option Lane) (c : Candidate) : Prop :=
  eligibleIn st.config st.chart.loopDurationMs adj lf
    (st.chart.notes.zip st.nextLoopIndexByNote) 0 c

/-! ## General lemmas -/

theorem wrapTimeMs_bounds (t L : ℚ) (hL : 0 < L) :
    0 ≤ wrapTimeMs t L ∧ wrapTimeMs t L < L := by
  unfold wrapTimeMs jsMod ratTrunc
  set q := t / L with hq
  have ht : t = L * q := by
    field_simp [hq]
  by_cases h0 : 0 ≤ q
  · rw [if_pos h0]
    have h1 : (⌊q⌋ : ℚ) ≤ q := Int.floor_le q
    have h2 : q < ⌊q⌋ + 1 := Int.lt_floor_add_one q
    have hw : t - L * (⌊q⌋ : ℚ) = L * (q - ⌊q⌋) := by rw [ht]; ring
    have hnn : 0 ≤ L * (q - (⌊q⌋ : ℚ)) := by nlinarith
    have hlt : L * (q - (⌊q⌋ : ℚ)) < L := by nlinarith
    rw [hw, if_neg (not_lt.mpr hnn)]
    exact ⟨hnn, hlt⟩
  · rw [if_neg h0]
    have h1 : q ≤ (⌈q⌉ : ℚ) := Int.le_ceil q
    have h2 : (⌈q⌉ : ℚ) < q + 1 := Int.ceil_lt_add_one q
    have hw : t - L * (⌈q⌉ : ℚ) = L * (q - ⌈q⌉) := by rw [ht]; ring
    have hle : L * (q - (⌈q⌉ : ℚ)) ≤ 0 := by nlinarith
    have hgt : -L < L * (q - (⌈q⌉ : ℚ)) := by nlinarith
    rw [hw]
    by_cases hneg : L * (q - (⌈q⌉ : ℚ)) < 0
    · rw [if_pos hneg]
      exact ⟨by linarith, by linarith⟩
    · rw [if_neg hneg]
      exact ⟨le_of_not_lt hneg, by linarith [le_antisymm hle (le_of_not_lt hneg)]⟩

theorem mem_insertSortedBy {le : α → α → Bool} {x a : α} :
    ∀ {l : List α}, a ∈ insertSortedBy le x l ↔ a = x ∨ a ∈ l := by
  intro l
  induction l with
  | nil => simp [insertSortedBy]
  | cons y ys ih =>
    by_cases h : le y x
    · simp only [insertSortedBy, if_pos h, List.mem_cons, ih]
      tauto
    · simp only [insertSortedBy, if_neg h, List.mem_cons]

theorem mem_sortListBy {le : α → α → Bool} {a : α} :
    ∀ {l : List α}, a ∈ sortListBy le l ↔ a ∈ l := by
  intro l
  induction l with
  | nil => simp [sortListBy]
  | cons x xs ih =>
    simp only [sortListBy, mem_insertSortedBy, ih, List.mem_cons]

theorem assertFiniteNumber_ok {v : JSNum} {label : String} {q : ℚ}
    (h : assertFiniteNumber v label = .ok q) : v = some q := by
  cases v with
  | none => simp [assertFiniteNumber] at h
  | some x =>
    simp only [assertFiniteNumber, Except.ok.injEq] at h
    rw [h]

theorem assertFinitePositive_ok {v : JSNum} {label : String} {q : ℚ}
    (h : assertFinitePositive v label = .ok q) : v = some q ∧ 0 < q := by
  cases v with
  | none => simp [assertFinitePositive, assertFiniteNumber, bind, Except.bind] at h
  | some x =>
    simp only [assertFinitePositive, assertFiniteNumber, bind, Except.bind] at h
    by_cases hx : x ≤ 0
    · rw [if_pos hx] at h
      simp at h
    · rw [if_neg hx] at h
      simp only [Except.ok.injEq] at h
      exact ⟨by rw [h], lt_of_not_le (h ▸ hx)⟩

/-! ## Lemmas on the open-string resolvers -/

theorem resolveScoring_keeps (ov : OpenStringOverrides) (t : OpenStringTableQ)
    (h : resolveOpenStringScoring ov = .ok t) (lane : Lane) (v : ℚ)
    (hv : ov.get lane = some (some v)) : t.get lane = v := by
  unfold resolveOpenStringScoring at h
  cases hE : resolveScoringLaneValue ov.E (defaultOpenStringMidi .E) "openStringMidiByLane.E" with
  | error e => rw [hE] at h; simp [bind, Except.bind] at h
  | ok ve =>
    rw [hE] at h
    cases hA : resolveScoringLaneValue ov.A (defaultOpenStringMidi .A) "openStringMidiByLane.A" with
    | error e => rw [hA] at h; simp [bind, Except.bind] at h
    | ok va =>
      rw [hA] at h
      cases hD : resolveScoringLaneValue ov.D (defaultOpenStringMidi .D) "openStringMidiByLane.D" with
      | error e => rw [hD] at h; simp [bind, Except.bind] at h
      | ok vd =>
        rw [hD] at h
        cases hG : resolveScoringLaneValue ov.G (defaultOpenStringMidi .G) "openStringMidiByLane.G" with
        | error e => rw [hG] at h; simp [bind, Except.bind] at h
        | ok vg =>
          rw [hG] at h
          simp only [bind, Except.bind, Except.ok.injEq] at h
          subst h
          cases lane <;>
            simp only [OpenStringOverrides.get] at hv <;>
            simp only [OpenStringTableQ.get] <;>
            simp_all [resolveScoringLaneValue, assertFiniteNumber]

theorem resolveChart_rounds (ov : OpenStringOverrides) (t : OpenStringTableZ)
    (h : resolveOpenStringChart ov = .ok t) (lane : Lane) (v : ℚ)
    (hv : ov.get lane = some (some v)) : t.get lane = jsRound v := by
  unfold resolveOpenStringChart at h
  cases hE : resolveChartLaneValue ov.E 28 "openStringMidiByLane.E" with
  | error e => rw [hE] at h; simp [bind, Except.bind] at h
  | ok ve =>
    rw [hE] at h
    cases hA : resolveChartLaneValue ov.A 33 "openStringMidiByLane.A" with
    | error e => rw [hA] at h; simp [bind, Except.bind] at h
    | ok va =>
      rw [hA] at h
      cases hD : resolveChartLaneValue ov.D 38 "openStringMidiByLane.D" with
      | error e => rw [hD] at h; simp [bind, Except.bind] at h
      | ok vd =>
        rw [hD] at h
        cases hG : resolveChartLaneValue ov.G 43 "openStringMidiByLane.G" with
        | error e => rw [hG] at h; simp [bind, Except.bind] at h
        | ok vg =>
          rw [hG] at h
          simp only [bind, Except.bind, Except.ok.injEq] at h
          subst h
          cases lane <;>
            simp only [OpenStringOverrides.get] at hv <;>
            simp only [OpenStringTableZ.get] <;>
            simp_all [resolveChartLaneValue, assertFiniteNumber, bind, Except.bind]

/-- C10: the chart-side open-string resolver rounds every finite override
value with `Math.round` before any fret arithmetic, whereas the scoring-side
resolver keeps finite override values unchanged; consequently the two
resolvers can produce different tables from the same fractional overrides. -/
theorem open_string_resolvers_diverge_on_fractional_overrides :
    (∀ (ov : OpenStringOverrides) (t : OpenStringTableZ) (lane : Lane) (v : ℚ),
        resolveOpenStringChart ov = .ok t → ov.get lane = some (some v) →
        t.get lane = jsRound v) ∧
    (∀ (ov : OpenStringOverrides) (t : OpenStringTableQ) (lane : Lane) (v : ℚ),
        resolveOpenStringScoring ov = .ok t → ov.get lane = some (some v) →
        t.get lane = v) ∧
    (∃ (ov : OpenStringOverrides) (tChart : OpenStringTableZ) (tScoring : OpenStringTableQ),
        resolveOpenStringChart ov = .ok tChart ∧
        resolveOpenStringScoring ov = .ok tScoring ∧
        ((tChart.get .E : ℚ) ≠ tScoring.get .E)) := by
  refine ⟨fun ov t lane v h hv => resolveChart_rounds ov t h lane v hv,
          fun ov t lane v h hv => resolveScoring_keeps ov t h lane v hv,
          ⟨{ E := some (some (57/2)) }, { E := 29, A := 33, D := 38, G := 43 },
           { E := 57/2, A := 33, D := 38, G := 43 }, ?_, ?_, ?_⟩⟩
  · simp only [resolveOpenStringChart, resolveChartLaneValue, assertFiniteNumber,
      bind, Except.bind, jsRound]
    norm_num
  · simp [resolveOpenStringScoring, resolveScoringLaneValue, assertFiniteNumber,
      bind, Except.bind, defaultOpenStringMidi]
  · simp only [OpenStringTableZ.get, OpenStringTableQ.get]
    norm_num

/-- Witness for the C10 theorem at a concrete fractional override. -/
theorem open_string_resolvers_diverge_on_fractional_overrides_witness :
    resolveOpenStringChart { E := some (some (5/2)) } =
      .ok { E := 3, A := 33, D := 38, G := 43 } ∧
    ({ E := 3, A := 33, D := 38, G := 43 } : OpenStringTableZ).get .E = jsRound (5/2) := by
  have h : resolveOpenStringChart { E := some (some (5/2)) } =
      .ok { E := 3, A := 33, D := 38, G := 43 } := by
    simp only [resolveOpenStringChart, resolveChartLaneValue, assertFiniteNumber,
      bind, Except.bind, jsRound]
    norm_num
  exact ⟨h, open_string_resolvers_diverge_on_fractional_overrides.1 _ _ .E (5/2) h rfl⟩

/-! ## Scoring configuration (C7) -/

theorem createScoringConfig_ok {o : ScoringConfigOverrides} {cfg : ScoringConfig}
    (h : createScoringConfig o = .ok cfg) :
    0 < cfg.timingWindowMs ∧ 0 < cfg.pitchWindowCents ∧
    0 < cfg.perfectTimingWindowMs ∧ 0 < cfg.perfectPitchWindowCents ∧
    cfg.perfectTimingWindowMs ≤ cfg.timingWindowMs ∧
    cfg.perfectPitchWindowCents ≤ cfg.pitchWindowCents := by
  unfold createScoringConfig at h
  cases h1 : assertFinitePositive (o.timingWindowMs.getD (some 80)) "timingWindowMs" with
  | error e => rw [h1] at h; simp [bind, Except.bind] at h
  | ok t =>
    rw [h1] at h
    cases h2 : assertFinitePositive (o.pitchWindowCents.getD (some 35)) "pitchWindowCents" with
    | error e => rw [h2] at h; simp [bind, Except.bind] at h
    | ok p =>
      rw [h2] at h
      cases h3 : assertFiniteNumber (o.latencyOffsetMs.getD (some 0)) "latencyOffsetMs" with
      | error e => rw [h3] at h; simp [bind, Except.bind] at h
      | ok l =>
        rw [h3] at h
        cases h4 : assertFinitePositive (o.perfectTimingWindowMs.getD (some 40))
            "perfectTimingWindowMs" with
        | error e => rw [h4] at h; simp [bind, Except.bind] at h
        | ok pt =>
          rw [h4] at h
          cases h5 : assertFinitePositive (o.perfectPitchWindowCents.getD (some 20))
              "perfectPitchWindowCents" with
          | error e => rw [h5] at h; simp [bind, Except.bind] at h
          | ok pp =>
            rw [h5] at h
            simp only [bind, Except.bind] at h
            by_cases hpt : pt > t
            · rw [if_pos hpt] at h
              simp at h
            · rw [if_neg hpt] at h
              by_cases hpp : pp > p
              · rw [if_pos hpp] at h
                simp at h
              · rw [if_neg hpp] at h
                simp only [Except.ok.injEq] at h
                subst h
                exact ⟨(assertFinitePositive_ok h1).2, (assertFinitePositive_ok h2).2,
                  (assertFinitePositive_ok h4).2, (assertFinitePositive_ok h5).2,
                  not_lt.mp hpt, not_lt.mp hpp⟩

/-- C7: every config accepted by `createScoringConfig` satisfies the window
invariants (the four windows strictly positive, each perfect window at most
its normal window); a cross-field violation fails with the message naming the
field and rule, as does a non-positive window; and `updateConfig` /
`setLatencyOffsetMs` rebuild the config from the merged overrides through
`createScoringConfig`, so the invariants hold on the merged result. -/
theorem scoring_config_invariants :
    (∀ (o : ScoringConfigOverrides) (cfg : ScoringConfig),
        createScoringConfig o = .ok cfg →
        0 < cfg.timingWindowMs ∧ 0 < cfg.pitchWindowCents ∧
        0 < cfg.perfectTimingWindowMs ∧ 0 < cfg.perfectPitchWindowCents ∧
        cfg.perfectTimingWindowMs ≤ cfg.timingWindowMs ∧
        cfg.perfectPitchWindowCents ≤ cfg.pitchWindowCents) ∧
    (∀ t p l pt pp : ℚ, 0 < t → 0 < p → 0 < pt → 0 < pp → pt > t →
        createScoringConfig {
          timingWindowMs := some (some t), pitchWindowCents := some (some p),
          latencyOffsetMs := some (some l), perfectTimingWindowMs := some (some pt),
          perfectPitchWindowCents := some (some pp) } =
        .error "perfectTimingWindowMs must be <= timingWindowMs.") ∧
    (∀ t p l pt pp : ℚ, 0 < t → 0 < p → 0 < pt → 0 < pp → pt ≤ t → pp > p →
        createScoringConfig {
          timingWindowMs := some (some t), pitchWindowCents := some (some p),
          latencyOffsetMs := some (some l), perfectTimingWindowMs := some (some pt),
          perfectPitchWindowCents := some (some pp) } =
        .error "perfectPitchWindowCents must be <= pitchWindowCents.") ∧
    (∀ t : ℚ, t ≤ 0 →
        createScoringConfig { timingWindowMs := some (some t) } =
        .error "timingWindowMs must be > 0.") ∧
    (∀ (cfg : ScoringConfig) (o : ScoringConfigOverrides),
        updateConfig cfg o = createScoringConfig (mergeConfigOverrides cfg o)) ∧
    (∀ (cfg cfg' : ScoringConfig) (o : ScoringConfigOverrides),
        updateConfig cfg o = .ok cfg' →
        cfg'.perfectTimingWindowMs ≤ cfg'.timingWindowMs ∧
        cfg'.perfectPitchWindowCents ≤ cfg'.pitchWindowCents) ∧
    (∀ (cfg cfg' : ScoringConfig) (offsetMs : ℚ),
        setLatencyOffsetMs cfg offsetMs = .ok cfg' →
        cfg'.perfectTimingWindowMs ≤ cfg'.timingWindowMs ∧
        cfg'.perfectPitchWindowCents ≤ cfg'.pitchWindowCents) := by
  refine ⟨fun o cfg h => createScoringConfig_ok h, ?_, ?_, ?_, fun cfg o => rfl, ?_, ?_⟩
  · intro t p l pt pp ht hp hpt hpp hviol
    simp only [createScoringConfig, Option.getD, assertFinitePositive, assertFiniteNumber,
      bind, Except.bind]
    rw [if_neg (not_le.mpr ht), if_neg (not_le.mpr hp), if_neg (not_le.mpr hpt),
      if_neg (not_le.mpr hpp)]
    simp [hviol]
  · intro t p l pt pp ht hp hpt hpp hle hviol
    simp only [createScoringConfig, Option.getD, assertFinitePositive, assertFiniteNumber,
      bind, Except.bind]
    rw [if_neg (not_le.mpr ht), if_neg (not_le.mpr hp), if_neg (not_le.mpr hpt),
      if_neg (not_le.mpr hpp)]
    simp [hviol, not_lt.mpr hle]
  · intro t ht
    simp only [createScoringConfig, Option.getD, assertFinitePositive, assertFiniteNumber,
      bind, Except.bind]
    rw [if_pos ht]
    rfl
  · intro cfg cfg' o h
    have := createScoringConfig_ok h
    exact ⟨this.2.2.2.2.1, this.2.2.2.2.2⟩
  · intro cfg cfg' offsetMs h
    have := createScoringConfig_ok h
    exact ⟨this.2.2.2.2.1, this.2.2.2.2.2⟩

/-- Witness for the C7 theorem at concrete inputs. -/
theorem scoring_config_invariants_witness :
    (createScoringConfig {} = .ok {
        timingWindowMs := 80, pitchWindowCents := 35, latencyOffsetMs := 0,
        perfectTimingWindowMs := 40, perfectPitchWindowCents := 20 }) ∧
    (({ timingWindowMs := 80, pitchWindowCents := 35, latencyOffsetMs := 0,
        perfectTimingWindowMs := 40, perfectPitchWindowCents := 20 } : ScoringConfig
        ).perfectTimingWindowMs ≤ 80) ∧
    createScoringConfig {
        timingWindowMs := some (some 10), pitchWindowCents := some (some 35),
        latencyOffsetMs := some (some 0), perfectTimingWindowMs := some (some 40),
        perfectPitchWindowCents := some (some 20) } =
      .error "perfectTimingWindowMs must be <= timingWindowMs." := by
  have h : createScoringConfig {} = .ok {
      timingWindowMs := 80, pitchWindowCents := 35, latencyOffsetMs := 0,
      perfectTimingWindowMs := 40, perfectPitchWindowCents := 20 } := by
    simp only [createScoringConfig, Option.getD, assertFinitePositive, assertFiniteNumber,
      bind, Except.bind]
    norm_num
  refine ⟨h, ?_, ?_⟩
  · exact le_of_le_of_eq (scoring_config_invariants.1 _ _ h).2.2.2.2.1 rfl
  · exact scoring_config_invariants.2.1 10 35 0 40 20 (by norm_num) (by norm_num)
      (by norm_num) (by norm_num) (by norm_num)

/-! ## SMF time conversion (C6) -/

theorem secondsToMs_ok_some {v : JSNum} {label : String} {q : ℚ}
    (h : secondsToMs v label = .ok q) : ∃ s, v = some s := by
  cases v with
  | none => simp [secondsToMs, assertFiniteNumber, bind, Except.bind] at h
  | some s => exact ⟨s, rfl⟩

theorem parseDecodedNotes_fails (ti : ℕ) :
    ∀ (ni : ℕ) (notes : List DecodedNote),
      (∃ n ∈ notes, n.time = none ∨ n.duration = none) →
      ∃ msg, parseDecodedNotes ti ni notes = .error msg := by
  intro ni notes
  induction notes generalizing ni with
  | nil => simp
  | cons head rest ih =>
    rintro ⟨n, hn, hbad⟩
    cases hm : normalizeMidiNote head.midi ti ni with
    | error e => exact ⟨e, by simp [parseDecodedNotes, hm, bind, Except.bind]⟩
    | ok m =>
      cases htm : secondsToMs head.time
          ("tracks[" ++ toString ti ++ "].notes[" ++ toString ni ++ "].time") with
      | error e => exact ⟨e, by simp [parseDecodedNotes, hm, htm, bind, Except.bind]⟩
      | ok tv =>
        cases hdm : secondsToMs head.duration
            ("tracks[" ++ toString ti ++ "].notes[" ++ toString ni ++ "].duration") with
        | error e => exact ⟨e, by simp [parseDecodedNotes, hm, htm, hdm, bind, Except.bind]⟩
        | ok dv =>
          rcases List.mem_cons.mp hn with rfl | hmem
          · obtain ⟨s, hs⟩ := secondsToMs_ok_some htm
            obtain ⟨s', hs'⟩ := secondsToMs_ok_some hdm
            rcases hbad with hbad | hbad
            · rw [hbad] at hs
              exact absurd hs (by simp)
            · rw [hbad] at hs'
              exact absurd hs' (by simp)
          · obtain ⟨msg, hmsg⟩ := ih (ni + 1) ⟨n, hmem, hbad⟩
            exact ⟨msg, by simp [parseDecodedNotes, hm, htm, hdm, hmsg, bind, Except.bind]⟩

theorem parseDecodedTracks_fails :
    ∀ (ti : ℕ) (tracks : List DecodedTrack),
      (∃ track ∈ tracks, ∃ n ∈ track.notes, n.time = none ∨ n.duration = none) →
      ∃ msg, parseDecodedTracks ti tracks = .error msg := by
  intro ti tracks
  induction tracks generalizing ti with
  | nil => simp
  | cons head rest ih =>
    rintro ⟨track, htrack, hbad⟩
    cases hh : parseDecodedNotes ti 0 head.notes with
    | error e => exact ⟨e, by simp [parseDecodedTracks, hh, bind, Except.bind]⟩
    | ok parsedNotes =>
      rcases List.mem_cons.mp htrack with rfl | hmem
      · obtain ⟨msg, hmsg⟩ := parseDecodedNotes_fails ti 0 track.notes hbad
        rw [hmsg] at hh
        exact absurd hh (by simp)
      · obtain ⟨msg, hmsg⟩ := ih (ti + 1) ⟨track, hmem, hbad⟩
        exact ⟨msg, by simp [parseDecodedTracks, hh, hmsg, bind, Except.bind]⟩

/-- C6 (amended): `secondsToMs` rounds positive seconds to milliseconds,
fails only on non-finite input, and clamps every finite value `≤ 0`
(negative values included) to `0` before rounding; negative finite times do
not fail parsing, while any non-finite time or duration makes the whole
parse fail, and every parse failure carries code `SMF_PARSE_FAILED`. -/
theorem seconds_to_ms_clamps_and_nonfinite_fails :
    (∀ label : String,
        secondsToMs none label = .error (label ++ " must be a finite number.")) ∧
    (∀ (s : ℚ) (label : String), s ≤ 0 → secondsToMs (some s) label = .ok 0) ∧
    (∀ (s : ℚ) (label : String), 0 < s →
        secondsToMs (some s) label = .ok ((jsRound (s * 1000) : ℤ) : ℚ)) ∧
    (∀ (decoded : DecodedMidi) (err : MidiChartError),
        parseDecodedMidi decoded = .error err → err.code = .smfParseFailed) ∧
    (∀ decoded : DecodedMidi,
        (∃ track ∈ decoded.tracks, ∃ n ∈ track.notes, n.time = none ∨ n.duration = none) →
        ∃ err, parseDecodedMidi decoded = .error err ∧ err.code = .smfParseFailed) := by
  refine ⟨fun label => rfl, ?_, ?_, ?_, ?_⟩
  · intro s label hs
    simp [secondsToMs, assertFiniteNumber, bind, Except.bind, hs]
  · intro s label hs
    simp [secondsToMs, assertFiniteNumber, bind, Except.bind, not_le.mpr hs]
  · intro decoded err h
    unfold parseDecodedMidi at h
    cases ht : parseDecodedTracks 0 decoded.tracks with
    | error msg =>
        rw [ht] at h
        simp only [Except.error.injEq] at h
        rw [← h]
    | ok tracks =>
        rw [ht] at h
        simp at h
  · intro decoded hbad
    obtain ⟨msg, hmsg⟩ := parseDecodedTracks_fails 0 decoded.tracks hbad
    exact ⟨{ code := .smfParseFailed,
             message := "Failed to parse Standard MIDI File (SMF): " ++ msg },
           by simp [parseDecodedMidi, hmsg], rfl⟩

/-- Witness for the amended C6 theorem at concrete inputs. -/
theorem seconds_to_ms_clamps_and_nonfinite_fails_witness :
    ((-1 : ℚ) ≤ 0 ∧ secondsToMs (some (-1)) "t" = .ok 0) ∧
    ((0 : ℚ) < 2 ∧ secondsToMs (some 2) "t" = .ok ((jsRound (2 * 1000) : ℤ) : ℚ)) ∧
    (∃ err, parseDecodedMidi nonFiniteTimeDecoded = .error err ∧
      err.code = .smfParseFailed) :=
  ⟨⟨by norm_num, seconds_to_ms_clamps_and_nonfinite_fails.2.1 (-1) "t" (by norm_num)⟩,
   ⟨by norm_num, seconds_to_ms_clamps_and_nonfinite_fails.2.2.1 2 "t" (by norm_num)⟩,
   seconds_to_ms_clamps_and_nonfinite_fails.2.2.2.2 nonFiniteTimeDecoded
     ⟨{ name := "t", notes := [{ midi := some 28, time := none, duration := some 1 }] },
      by simp [nonFiniteTimeDecoded],
      { midi := some 28, time := none, duration := some 1 }, by simp, Or.inl rfl⟩⟩

/-- C6 counterexample: a negative finite on-time does not fail parsing; the
parse succeeds with the time clamped to 0 ms, contradicting the claim that
negative times are invalid and fail with `SMF_PARSE_FAILED`. -/
theorem negative_seconds_parse_successfully :
    (parseDecodedMidi negativeTimeDecoded).map
      (fun parsed =>
        (parsed.bpm, parsed.tracks.map fun track => (track.index, track.noteCount, track.notes))) =
    .ok (120, [(0, 1, [{ midi := 28, timeMs := 0, durationMs := 1000 }])]) := by
  simp only [negativeTimeDecoded, parseDecodedMidi, parseDecodedTracks, parseDecodedNotes,
    normalizeMidiNote, secondsToMs, assertFiniteNumber, deriveBpm, sortListBy, insertSortedBy,
    jsRound, bind, Except.bind]
  norm_num [Except.map, List.map]
  simp [sortListBy, insertSortedBy]

/-! ## Adapter loop-duration derivation (C5) -/

theorem adapterMaxEnd_ok :
    ∀ (notes : List ChartDataNote) (i : ℕ) (acc m : ℚ),
      adapterMaxEnd i acc notes = .ok m →
      m = notes.foldl (fun a n => max a (n.timeMs + n.durationMs)) acc := by
  intro notes
  induction notes with
  | nil =>
    intro i acc m h
    simp only [adapterMaxEnd, Except.ok.injEq] at h
    simp [← h]
  | cons head rest ih =>
    intro i acc m h
    by_cases hd : head.durationMs < 0
    · rw [adapterMaxEnd, if_pos hd] at h
      simp at h
    · rw [adapterMaxEnd, if_neg hd] at h
      simpa using ih (i + 1) (max acc (head.timeMs + head.durationMs)) m h

/-- C5 (amended): when `options.loopDurationMs` is absent, the chart-data
adapter derives the loop duration as `max(1, max over notes of
(timeMs + durationMs))` — with no rounding up and no clamping of negative
times, unlike the SMF-conversion rule claimed. -/
theorem adapter_loop_duration_rule :
    ∀ (notes : List ChartDataNote) (options : ChartDataAdapterOptions)
      (chart : LoopScoringChart), options.loopDurationMs = none →
      createLoopScoringChartFromChartData notes options = .ok chart →
      chart.loopDurationMs =
        max 1 (notes.foldl (fun acc note => max acc (note.timeMs + note.durationMs)) 0) := by
  intro notes options chart hnone h
  unfold createLoopScoringChartFromChartData at h
  cases hos : resolveOpenStringScoring options.openStringMidiByLane with
  | error e => rw [hos] at h; simp [bind, Except.bind] at h
  | ok openStrings =>
    rw [hos, hnone] at h
    simp only [bind, Except.bind] at h
    cases hd : deriveLoopDurationMsAdapters notes with
    | error e => rw [hd] at h; simp at h
    | ok L =>
      rw [hd] at h
      simp only at h
      cases hm : adapterChartNotes openStrings 0 notes with
      | error e => rw [hm] at h; simp at h
      | ok mapped =>
        rw [hm] at h
        simp only [Except.ok.injEq] at h
        unfold deriveLoopDurationMsAdapters at hd
        cases hme : adapterMaxEnd 0 0 notes with
        | error e => rw [hme] at hd; simp [bind, Except.bind] at hd
        | ok maxEnd =>
          rw [hme] at hd
          simp only [bind, Except.bind, Except.ok.injEq] at hd
          rw [← h]
          simp only
          rw [← hd, adapterMaxEnd_ok notes 0 0 maxEnd hme]

/-- Witness for the amended C5 theorem at a concrete chart. -/
theorem adapter_loop_duration_rule_witness :
    createLoopScoringChartFromChartData
      [{ lane := .E, fret := 0, timeMs := 7/2, durationMs := 0 }] {} =
      .ok { loopDurationMs := 7/2,
            notes := [{ id := some "chart-0", lane := "E", timeMs := 7/2,
                        durationMs := some 0, fret := some 0, targetMidiNote := some 28,
                        targetCents := some 2800 }] } ∧
    ({ loopDurationMs := 7/2,
       notes := [{ id := some "chart-0", lane := "E", timeMs := 7/2,
                   durationMs := some 0, fret := some 0, targetMidiNote := some 28,
                   targetCents := some 2800 }] } : LoopScoringChart).loopDurationMs =
      max 1 ([({ lane := .E, fret := 0, timeMs := 7/2, durationMs := 0 } : ChartDataNote)].foldl
        (fun acc note => max acc (note.timeMs + note.durationMs)) 0) := by
  have h : createLoopScoringChartFromChartData
      [{ lane := .E, fret := 0, timeMs := 7/2, durationMs := 0 }] {} =
      .ok { loopDurationMs := 7/2,
            notes := [{ id := some "chart-0", lane := "E", timeMs := 7/2,
                        durationMs := some 0, fret := some 0, targetMidiNote := some 28,
                        targetCents := some 2800 }] } := by
    simp only [createLoopScoringChartFromChartData, resolveOpenStringScoring,
      resolveScoringLaneValue, defaultOpenStringMidi, deriveLoopDurationMsAdapters,
      adapterMaxEnd, adapterChartNotes, toMidiNoteFromLaneAndFret, toCentsFromMidiNote,
      OpenStringTableQ.get, laneToString, bind, Except.bind]
    norm_num
    decide
  exact ⟨h, adapter_loop_duration_rule _ _ _ rfl h⟩

/-- C5 counterexample: on a note ending at 2.5 ms the adapter derives a loop
duration of 2.5 ms, while the SMF-conversion rule claimed for it yields 3 ms
(the adapter does not round up). -/
theorem adapter_loop_duration_differs_from_smf_rule :
    createLoopScoringChartFromChartData
      [{ lane := .E, fret := 0, timeMs := 5/2, durationMs := 0 }] {} =
      .ok { loopDurationMs := 5/2,
            notes := [{ id := some "chart-0", lane := "E", timeMs := 5/2,
                        durationMs := some 0, fret := some 0, targetMidiNote := some 28,
                        targetCents := some 2800 }] } ∧
    smfLoopDurationRule [{ lane := .E, fret := 0, timeMs := 5/2, durationMs := 0 }] = 3 ∧
    ((5 : ℚ)/2 ≠ 3) := by
  refine ⟨?_, ?_, by norm_num⟩
  · simp only [createLoopScoringChartFromChartData, resolveOpenStringScoring,
      resolveScoringLaneValue, defaultOpenStringMidi, deriveLoopDurationMsAdapters,
      adapterMaxEnd, adapterChartNotes, toMidiNoteFromLaneAndFret, toCentsFromMidiNote,
      OpenStringTableQ.get, laneToString, bind, Except.bind]
    norm_num
    decide
  · simp only [smfLoopDurationRule, List.foldl]
    norm_num
    have h3 : ⌈(5/2 : ℚ)⌉ = 3 := by
      rw [Int.ceil_eq_iff]
      constructor <;> norm_num
    rw [h3]
    norm_num

/-! ## Chart normalization (C9) -/

theorem normalizeNote_ok {os : OpenStringTableQ} {L : ℚ} {i : ℕ} {raw : LoopScoringNote}
    {n : InternalNote} (hL : 0 < L) (h : normalizeNote os L i raw = .ok n) :
    (0 ≤ n.timeMs ∧ n.timeMs < L) ∧
    ((raw.targetCents = none ∨ (raw.targetMidiNote = none ∧ raw.fret = none)) →
      n.targetCents = n.targetMidiNote * 100) := by
  unfold normalizeNote at h
  cases hp : parseLane raw.lane with
  | none => rw [hp] at h; exact absurd h (by simp)
  | some lane =>
    rw [hp] at h
    rcases hdm : raw.durationMs with _ | d <;>
      rcases htc : raw.targetCents with _ | c <;>
        rcases htm : raw.targetMidiNote with _ | m <;>
          rcases hf : raw.fret with _ | f <;>
            rw [hdm, htc, htm, hf] at h <;>
            simp only [Option.map, Option.getD] at h
    · rw [if_neg (lt_irrefl (0 : ℚ))] at h
      exact absurd h (by simp)
    · rw [if_neg (lt_irrefl (0 : ℚ))] at h
      simp only [Except.ok.injEq] at h
      subst h
      exact ⟨wrapTimeMs_bounds raw.timeMs L hL, fun _ => by simp [toCentsFromMidiNote]⟩
    · rw [if_neg (lt_irrefl (0 : ℚ))] at h
      simp only [Except.ok.injEq] at h
      subst h
      exact ⟨wrapTimeMs_bounds raw.timeMs L hL, fun _ => by simp [toCentsFromMidiNote]⟩
    · rw [if_neg (lt_irrefl (0 : ℚ))] at h
      simp only [Except.ok.injEq] at h
      subst h
      exact ⟨wrapTimeMs_bounds raw.timeMs L hL, fun _ => by simp [toCentsFromMidiNote]⟩
    · rw [if_neg (lt_irrefl (0 : ℚ))] at h
      simp only [Except.ok.injEq] at h
      subst h
      refine ⟨wrapTimeMs_bounds raw.timeMs L hL, fun _ => ?_⟩
      show c = c / 100 * 100
      rw [div_mul_cancel₀ c (by norm_num : (100 : ℚ) ≠ 0)]
    · rw [if_neg (lt_irrefl (0 : ℚ))] at h
      simp only [Except.ok.injEq] at h
      subst h
      refine ⟨wrapTimeMs_bounds raw.timeMs L hL, fun hshape => ?_⟩
      rcases hshape with h1 | ⟨h2, h3⟩ <;> simp_all
    · rw [if_neg (lt_irrefl (0 : ℚ))] at h
      simp only [Except.ok.injEq] at h
      subst h
      refine ⟨wrapTimeMs_bounds raw.timeMs L hL, fun hshape => ?_⟩
      rcases hshape with h1 | ⟨h2, h3⟩ <;> simp_all
    · rw [if_neg (lt_irrefl (0 : ℚ))] at h
      simp only [Except.ok.injEq] at h
      subst h
      refine ⟨wrapTimeMs_bounds raw.timeMs L hL, fun hshape => ?_⟩
      rcases hshape with h1 | ⟨h2, h3⟩ <;> simp_all
    · by_cases hd : d < 0
      · rw [if_pos hd] at h; exact absurd h (by simp)
      · rw [if_neg hd] at h; exact absurd h (by simp)
    · by_cases hd : d < 0
      · rw [if_pos hd] at h; exact absurd h (by simp)
      · rw [if_neg hd] at h
        simp only [Except.ok.injEq] at h
        subst h
        exact ⟨wrapTimeMs_bounds raw.timeMs L hL, fun _ => by simp [toCentsFromMidiNote]⟩
    · by_cases hd : d < 0
      · rw [if_pos hd] at h; exact absurd h (by simp)
      · rw [if_neg hd] at h
        simp only [Except.ok.injEq] at h
        subst h
        exact ⟨wrapTimeMs_bounds raw.timeMs L hL, fun _ => by simp [toCentsFromMidiNote]⟩
    · by_cases hd : d < 0
      · rw [if_pos hd] at h; exact absurd h (by simp)
      · rw [if_neg hd] at h
        simp only [Except.ok.injEq] at h
        subst h
        exact ⟨wrapTimeMs_bounds raw.timeMs L hL, fun _ => by simp [toCentsFromMidiNote]⟩
    · by_cases hd : d < 0
      · rw [if_pos hd] at h; exact absurd h (by simp)
      · rw [if_neg hd] at h
        simp only [Except.ok.injEq] at h
        subst h
        refine ⟨wrapTimeMs_bounds raw.timeMs L hL, fun _ => ?_⟩
        show c = c / 100 * 100
        rw [div_mul_cancel₀ c (by norm_num : (100 : ℚ) ≠ 0)]
    · by_cases hd : d < 0
      · rw [if_pos hd] at h; exact absurd h (by simp)
      · rw [if_neg hd] at h
        simp only [Except.ok.injEq] at h
        subst h
        refine ⟨wrapTimeMs_bounds raw.timeMs L hL, fun hshape => ?_⟩
        rcases hshape with h1 | ⟨h2, h3⟩ <;> simp_all
    · by_cases hd : d < 0
      · rw [if_pos hd] at h; exact absurd h (by simp)
      · rw [if_neg hd] at h
        simp only [Except.ok.injEq] at h
        subst h
        refine ⟨wrapTimeMs_bounds raw.timeMs L hL, fun hshape => ?_⟩
        rcases hshape with h1 | ⟨h2, h3⟩ <;> simp_all
    · by_cases hd : d < 0
      · rw [if_pos hd] at h; exact absurd h (by simp)
      · rw [if_neg hd] at h
        simp only [Except.ok.injEq] at h
        subst h
        refine ⟨wrapTimeMs_bounds raw.timeMs L hL, fun hshape => ?_⟩
        rcases hshape with h1 | ⟨h2, h3⟩ <;> simp_all


theorem normalizeNotes_mem {os : OpenStringTableQ} {L : ℚ} :
    ∀ {raws : List LoopScoringNote} {i : ℕ} {ns : List InternalNote},
      normalizeNotes os L i raws = .ok ns →
      ∀ n ∈ ns, ∃ (j : ℕ) (raw : LoopScoringNote),
        raws.get? j = some raw ∧ normalizeNote os L (i + j) raw = .ok n := by
  intro raws
  induction raws with
  | nil =>
    intro i ns h n hn
    simp only [normalizeNotes, Except.ok.injEq] at h
    rw [← h] at hn
    simp at hn
  | cons head rest ih =>
    intro i ns h n hn
    unfold normalizeNotes at h
    cases h1 : normalizeNote os L i head with
    | error e => rw [h1] at h; simp [bind, Except.bind] at h
    | ok n0 =>
      rw [h1] at h
      cases h2 : normalizeNotes os L (i + 1) rest with
      | error e => rw [h2] at h; simp [bind, Except.bind] at h
      | ok ns' =>
        rw [h2] at h
        simp only [bind, Except.bind, Except.ok.injEq] at h
        rw [← h] at hn
        rcases List.mem_cons.mp hn with rfl | hmem
        · refine ⟨0, head, rfl, ?_⟩
          rw [Nat.add_zero]
          exact h1
        · obtain ⟨j, raw, hget, heq⟩ := ih h2 n hmem
          refine ⟨j + 1, raw, hget, ?_⟩
          have harith : i + (j + 1) = i + 1 + j := by omega
          rw [harith]
          exact heq

theorem normalizeChart_ok {chart : LoopScoringChart} {os : OpenStringTableQ}
    {c : NormalizedChart} (h : normalizeChart chart os = .ok c) :
    0 < chart.loopDurationMs ∧ c.loopDurationMs = chart.loopDurationMs ∧
    ∀ n ∈ c.notes, ∃ (j : ℕ) (raw : LoopScoringNote),
      chart.notes.get? j = some raw ∧
      normalizeNote os chart.loopDurationMs j raw = .ok n := by
  unfold normalizeChart at h
  by_cases hL : chart.loopDurationMs ≤ 0
  · rw [if_pos hL] at h
    simp at h
  · rw [if_neg hL] at h
    cases hn : normalizeNotes os chart.loopDurationMs 0 chart.notes with
    | error e => rw [hn] at h; simp [bind, Except.bind] at h
    | ok ns =>
      rw [hn] at h
      simp only [bind, Except.bind, Except.ok.injEq] at h
      refine ⟨lt_of_not_le hL, by rw [← h], fun n hmem => ?_⟩
      rw [← h] at hmem
      simp only [sortNotes] at hmem
      obtain ⟨j, raw, hget, heq⟩ := normalizeNotes_mem hn n (mem_sortListBy.mp hmem)
      refine ⟨j, raw, hget, ?_⟩
      rw [Nat.zero_add] at heq
      exact heq

/-- C9 (amended): every successfully normalized note has `timeMs` wrapped
into `[0, loopDurationMs)`; and, per note, each normalized note is the image
of the raw note at one input position, and `targetCents = targetMidiNote *
100` holds for it whenever that raw note does not supply an explicit
`targetCents` alongside an explicit `targetMidiNote` or `fret` (an
inconsistent explicit pair is kept as given, so the equality can fail for
that note alone). -/
theorem normalized_notes_wrapped_and_cents_resolved :
    (∀ (chart : LoopScoringChart) (os : OpenStringTableQ) (c : NormalizedChart),
        normalizeChart chart os = .ok c →
        ∀ n ∈ c.notes, 0 ≤ n.timeMs ∧ n.timeMs < c.loopDurationMs) ∧
    (∀ (chart : LoopScoringChart) (os : OpenStringTableQ) (c : NormalizedChart),
        normalizeChart chart os = .ok c →
        ∀ n ∈ c.notes, ∃ (j : ℕ) (raw : LoopScoringNote),
          chart.notes.get? j = some raw ∧
          normalizeNote os chart.loopDurationMs j raw = .ok n ∧
          ((raw.targetCents = none ∨ (raw.targetMidiNote = none ∧ raw.fret = none)) →
            n.targetCents = n.targetMidiNote * 100)) := by
  constructor
  · intro chart os c h n hn
    obtain ⟨hL, hLe, hmem⟩ := normalizeChart_ok h
    obtain ⟨j, raw, _, heq⟩ := hmem n hn
    rw [hLe]
    exact (normalizeNote_ok hL heq).1
  · intro chart os c h n hn
    obtain ⟨hL, _, hmem⟩ := normalizeChart_ok h
    obtain ⟨j, raw, hget, heq⟩ := hmem n hn
    exact ⟨j, raw, hget, heq, fun hshape => (normalizeNote_ok hL heq).2 hshape⟩

/-- Witness for the amended C9 theorem on the specification's scenario chart. -/
theorem normalized_notes_wrapped_and_cents_resolved_witness :
    normalizeChart scenarioChart { E := 28, A := 33, D := 38, G := 43 } =
      .ok scenarioState.chart ∧
    ((0 : ℚ) ≤ 1000 ∧ (1000 : ℚ) < 2000) ∧ (2800 : ℚ) = 28 * 100 := by
  have h : normalizeChart scenarioChart { E := 28, A := 33, D := 38, G := 43 } =
      .ok scenarioState.chart := by
    simp only [scenarioChart, scenarioState, normalizeChart, normalizeNotes, normalizeNote,
      parseLane, wrapTimeMs, jsMod, ratTrunc, toMidiNoteFromLaneAndFret, toCentsFromMidiNote,
      sortNotes, sortListBy, insertSortedBy, OpenStringTableQ.get, bind, Except.bind,
      Option.getD, Option.map]
    norm_num [sortListBy, insertSortedBy]
    decide
  have hmem :
      ({ id := "note-0"
         lane := .E
         timeMs := 1000
         durationMs := 120
         fret := some 0
         targetMidiNote := 28
         targetCents := 2800
         sourceOrder := 0 } : InternalNote) ∈ scenarioState.chart.notes := by
    simp [scenarioState]
  refine ⟨h, ?_, ?_⟩
  · have := (normalized_notes_wrapped_and_cents_resolved.1 scenarioChart
      { E := 28, A := 33, D := 38, G := 43 } scenarioState.chart h) _ hmem
    simpa [scenarioState] using this
  · obtain ⟨j, raw, hget, _, hshape⟩ := (normalized_notes_wrapped_and_cents_resolved.2
      scenarioChart { E := 28, A := 33, D := 38, G := 43 } scenarioState.chart h) _ hmem
    have hrawshape : raw.targetCents = none := by
      cases j with
      | zero =>
        have hraw : raw =
            { lane := "E", timeMs := 1000, durationMs := some 120, fret := some 0 } := by
          simpa [scenarioChart] using hget.symm
        rw [hraw]
      | succ jrest => simp [scenarioChart] at hget
    have := hshape (Or.inl hrawshape)
    simpa using this

/-- C9 counterexample: a note supplying both an explicit `targetCents` and an
inconsistent explicit `targetMidiNote` normalizes successfully but violates
`targetCents = targetMidiNote * 100`. -/
theorem explicit_target_cents_can_contradict_midi_note :
    normalizeChart
      { loopDurationMs := 1000,
        notes := [{ lane := "E", timeMs := 0, targetMidiNote := some 40,
                    targetCents := some 123 }] }
      { E := 28, A := 33, D := 38, G := 43 } =
    .ok { loopDurationMs := 1000,
          notes := [{ id := "note-0", lane := .E, timeMs := 0, durationMs := 0, fret := none,
                      targetMidiNote := 40, targetCents := 123, sourceOrder := 0 }] } ∧
    (123 : ℚ) ≠ 40 * 100 := by
  constructor
  · simp only [normalizeChart, normalizeNotes, normalizeNote, parseLane, wrapTimeMs, jsMod,
      ratTrunc, sortNotes, sortListBy, insertSortedBy, bind, Except.bind, Option.getD,
      Option.map]
    norm_num [sortListBy, insertSortedBy]
    decide
  · norm_num

/-! ## Lane and fret resolution (C4) -/

theorem resolveLaneAndFretAux_none (midi : ℤ) (os : OpenStringTableZ) (mf : Option ℤ) :
    ∀ (lanes : List Lane) (best : Option (Lane × ℤ)),
      resolveLaneAndFretAux midi os mf lanes best = none ↔
      (best = none ∧ ∀ lane ∈ lanes,
        midi - os.get lane < 0 ∨ fretExceedsMax (midi - os.get lane) mf = true) := by
  intro lanes
  induction lanes with
  | nil =>
    intro best
    simp [resolveLaneAndFretAux]
  | cons lane rest ih =>
    intro best
    by_cases hskip : midi - os.get lane < 0 ∨ fretExceedsMax (midi - os.get lane) mf = true
    · simp only [resolveLaneAndFretAux]
      rw [if_pos hskip, ih]
      simp only [List.mem_cons]
      constructor
      · rintro ⟨hb, hrest⟩
        refine ⟨hb, fun l hl => ?_⟩
        rcases hl with rfl | hl
        · exact hskip
        · exact hrest l hl
      · rintro ⟨hb, hall⟩
        exact ⟨hb, fun l hl => hall l (Or.inr hl)⟩
    · simp only [resolveLaneAndFretAux]
      rw [if_neg hskip]
      cases best with
      | none =>
        rw [ih]
        constructor
        · rintro ⟨hb, _⟩
          exact absurd hb (by simp)
        · rintro ⟨_, hall⟩
          exact absurd (hall lane (List.mem_cons_self lane rest)) hskip
      | some b =>
        by_cases hlt : midi - os.get lane < b.2
        · simp only [if_pos hlt]
          rw [ih]
          constructor
          · rintro ⟨hb, _⟩
            exact absurd hb (by simp)
          · rintro ⟨hb, _⟩
            exact absurd hb (by simp)
        · simp only [if_neg hlt]
          rw [ih]
          constructor
          · rintro ⟨hb, _⟩
            exact absurd hb (by simp)
          · rintro ⟨hb, _⟩
            exact absurd hb (by simp)

theorem resolveLaneAndFretAux_some (midi : ℤ) (os : OpenStringTableZ) (mf : Option ℤ) :
    ∀ (lanes : List Lane) (best : Option (Lane × ℤ)) (r : Lane × ℤ),
      resolveLaneAndFretAux midi os mf lanes best = some r →
      (best = some r ∨
        (r.2 = midi - os.get r.1 ∧ 0 ≤ r.2 ∧ fretExceedsMax r.2 mf = false)) ∧
      (∀ b, best = some b → r.2 ≤ b.2) ∧
      (∀ lane ∈ lanes, 0 ≤ midi - os.get lane →
        fretExceedsMax (midi - os.get lane) mf = false → r.2 ≤ midi - os.get lane) := by
  intro lanes
  induction lanes with
  | nil =>
    intro best r h
    simp only [resolveLaneAndFretAux] at h
    refine ⟨Or.inl h, fun b hb => ?_, by simp⟩
    rw [h] at hb
    simp only [Option.some.injEq] at hb
    rw [hb]
  | cons lane rest ih =>
    intro best r h
    by_cases hskip : midi - os.get lane < 0 ∨ fretExceedsMax (midi - os.get lane) mf = true
    · simp only [resolveLaneAndFretAux] at h
      rw [if_pos hskip] at h
      obtain ⟨h1, h2, h3⟩ := ih best r h
      refine ⟨h1, h2, fun l hl hnn hok => ?_⟩
      rcases List.mem_cons.mp hl with rfl | hl
      · rcases hskip with hskip | hskip
        · exact absurd hnn (not_le.mpr hskip)
        · rw [hok] at hskip
          exact absurd hskip (by simp)
      · exact h3 l hl hnn hok
    · simp only [resolveLaneAndFretAux] at h
      rw [if_neg hskip] at h
      push_neg at hskip
      obtain ⟨hnn, hok⟩ := hskip
      have hnn' : 0 ≤ midi - os.get lane := hnn
      have hok' : fretExceedsMax (midi - os.get lane) mf = false := by
        simpa using hok
      cases best with
      | none =>
        obtain ⟨h1, h2, h3⟩ := ih (some (lane, midi - os.get lane)) r h
        have hwf : r.2 = midi - os.get r.1 ∧ 0 ≤ r.2 ∧ fretExceedsMax r.2 mf = false := by
          rcases h1 with h1 | h1
          · simp only [Option.some.injEq] at h1
            rw [← h1]
            exact ⟨rfl, hnn', hok'⟩
          · exact h1
        have hhead : r.2 ≤ midi - os.get lane := h2 (lane, midi - os.get lane) rfl
        refine ⟨Or.inr hwf, by simp, fun l hl hnn2 hok2 => ?_⟩
        rcases List.mem_cons.mp hl with rfl | hl
        · exact hhead
        · exact h3 l hl hnn2 hok2
      | some b =>
        by_cases hlt : midi - os.get lane < b.2
        · simp only [if_pos hlt] at h
          obtain ⟨h1, h2, h3⟩ := ih (some (lane, midi - os.get lane)) r h
          have hwf : r.2 = midi - os.get r.1 ∧ 0 ≤ r.2 ∧ fretExceedsMax r.2 mf = false := by
            rcases h1 with h1 | h1
            · simp only [Option.some.injEq] at h1
              rw [← h1]
              exact ⟨rfl, hnn', hok'⟩
            · exact h1
          have hhead : r.2 ≤ midi - os.get lane := h2 (lane, midi - os.get lane) rfl
          refine ⟨Or.inr hwf, fun b' hb' => ?_, fun l hl hnn2 hok2 => ?_⟩
          · simp only [Option.some.injEq] at hb'
            rw [← hb']
            exact le_trans hhead (le_of_lt hlt)
          · rcases List.mem_cons.mp hl with rfl | hl
            · exact hhead
            · exact h3 l hl hnn2 hok2
        · simp only [if_neg hlt] at h
          obtain ⟨h1, h2, h3⟩ := ih (some b) r h
          have hble : r.2 ≤ b.2 := h2 b rfl
          refine ⟨h1, fun b' hb' => ?_, fun l hl hnn2 hok2 => ?_⟩
          · simp only [Option.some.injEq] at hb'
            rw [← hb']
            exact hble
          · rcases List.mem_cons.mp hl with rfl | hl
            · exact le_trans hble (not_lt.mp hlt)
            · exact h3 l hl hnn2 hok2

theorem resolveLaneAndFret_some {midi : ℤ} {os : OpenStringTableZ} {mf : Option ℤ}
    {lane : Lane} {fret : ℤ} (h : resolveLaneAndFret midi os mf = some (lane, fret)) :
    fret = midi - os.get lane ∧ 0 ≤ fret ∧ fretExceedsMax fret mf = false ∧
    ∀ lane' : Lane, 0 ≤ midi - os.get lane' →
      fretExceedsMax (midi - os.get lane') mf = false → fret ≤ midi - os.get lane' := by
  obtain ⟨h1, _, h3⟩ := resolveLaneAndFretAux_some midi os mf bassLaneOrder none (lane, fret) h
  rcases h1 with h1 | h1
  · exact absurd h1 (by simp)
  · refine ⟨h1.1, h1.2.1, h1.2.2, fun lane' hnn hok => ?_⟩
    exact h3 lane' (by cases lane' <;> simp [bassLaneOrder]) hnn hok

theorem resolveLaneAndFret_none {midi : ℤ} {os : OpenStringTableZ} {mf : Option ℤ}
    (h : resolveLaneAndFret midi os mf = none) :
    ∀ lane : Lane, midi - os.get lane < 0 ∨ fretExceedsMax (midi - os.get lane) mf = true := by
  have := (resolveLaneAndFretAux_none midi os mf bassLaneOrder none).mp h
  exact fun lane => this.2 lane (by cases lane <;> simp [bassLaneOrder])

theorem convertTrackNotes_out_of_range {ti : ℕ} {os : OpenStringTableZ} {mf : Option ℤ} :
    ∀ (notes : List ParsedSmfTrackNote) (ni : ℕ),
      (∃ note ∈ notes, resolveLaneAndFret note.midi os mf = none) →
      ∃ msg, convertTrackNotes ti os mf ni notes =
        .error { code := .noteOutOfRange, message := msg } := by
  intro notes
  induction notes with
  | nil => simp
  | cons head rest ih =>
    rintro ni ⟨note, hnote, hbad⟩
    cases hh : resolveLaneAndFret head.midi os mf with
    | none =>
      refine ⟨"Track " ++ toString ti ++ " note " ++ toString ni ++ " (midi=" ++
        toString head.midi ++ ", timeMs=" ++ toString head.timeMs ++
        ") cannot be mapped to E/A/D/G lanes.", ?_⟩
      rw [convertTrackNotes, hh]
    | some laneAndFret =>
      rcases List.mem_cons.mp hnote with rfl | hmem
      · rw [hh] at hbad
        exact absurd hbad (by simp)
      · obtain ⟨msg, hmsg⟩ := ih (ni + 1) ⟨note, hmem, hbad⟩
        exact ⟨msg, by rw [convertTrackNotes, hh]; simp [hmsg, bind, Except.bind]⟩

theorem convertTrackNotes_ok {ti : ℕ} {os : OpenStringTableZ} {mf : Option ℤ} :
    ∀ (notes : List ParsedSmfTrackNote) (ni : ℕ) (converted : List ChartNote),
      convertTrackNotes ti os mf ni notes = .ok converted →
      ∀ cn ∈ converted, ∃ sn ∈ notes,
        resolveLaneAndFret sn.midi os mf = some (cn.lane, cn.fret) := by
  intro notes
  induction notes with
  | nil =>
    intro ni converted h cn hcn
    simp only [convertTrackNotes, Except.ok.injEq] at h
    rw [← h] at hcn
    simp at hcn
  | cons head rest ih =>
    intro ni converted h cn hcn
    cases hh : resolveLaneAndFret head.midi os mf with
    | none => rw [convertTrackNotes, hh] at h; simp at h
    | some laneAndFret =>
      rw [convertTrackNotes, hh] at h
      cases hrest : convertTrackNotes ti os mf (ni + 1) rest with
      | error e => rw [hrest] at h; simp [bind, Except.bind] at h
      | ok converted' =>
        rw [hrest] at h
        simp only [bind, Except.bind, Except.ok.injEq] at h
        rw [← h] at hcn
        rcases List.mem_cons.mp hcn with rfl | hmem
        · exact ⟨head, List.mem_cons_self head rest, by simpa using hh⟩
        · obtain ⟨sn, hsn, heq⟩ := ih (ni + 1) converted' hrest cn hmem
          exact ⟨sn, List.mem_cons_of_mem head hsn, heq⟩

theorem convert_eq_badIndex {parsedSmf : ParsedSmf} {trackIndex : JSNum}
    {options : ConvertOptions} (hidx : parseTrackIndex trackIndex = none) :
    convertSmfTrackToLaneChart parsedSmf trackIndex options =
      .error { code := .trackNotFound,
               message := "Track index must be a non-negative integer. Received: " ++
                 jsNumToString trackIndex ++ "." } := by
  simp only [convertSmfTrackToLaneChart, hidx]

theorem convert_eq_missingTrack {parsedSmf : ParsedSmf} {trackIndex : JSNum}
    {options : ConvertOptions} {idx : ℕ} (hidx : parseTrackIndex trackIndex = some idx)
    (hfind : parsedSmf.tracks.find? (fun candidate => candidate.index = idx) = none) :
    convertSmfTrackToLaneChart parsedSmf trackIndex options =
      .error { code := .trackNotFound,
               message := "Track index " ++ toString idx ++ " was not found." } := by
  simp only [convertSmfTrackToLaneChart, hidx, hfind]

theorem convert_eq_invalidOptions_os {parsedSmf : ParsedSmf} {trackIndex : JSNum}
    {options : ConvertOptions} {idx : ℕ} {track : ParsedSmfTrack} {msg : String}
    (hidx : parseTrackIndex trackIndex = some idx)
    (hfind : parsedSmf.tracks.find? (fun candidate => candidate.index = idx) = some track)
    (hos : resolveOpenStringChart options.openStringMidiByLane = .error msg) :
    convertSmfTrackToLaneChart parsedSmf trackIndex options =
      .error { code := .invalidOptions, message := msg } := by
  simp only [convertSmfTrackToLaneChart, hidx, hfind, hos, bind, Except.bind]

theorem convert_eq_invalidOptions_mf {parsedSmf : ParsedSmf} {trackIndex : JSNum}
    {options : ConvertOptions} {idx : ℕ} {track : ParsedSmfTrack}
    {os : OpenStringTableZ} {msg : String}
    (hidx : parseTrackIndex trackIndex = some idx)
    (hfind : parsedSmf.tracks.find? (fun candidate => candidate.index = idx) = some track)
    (hos : resolveOpenStringChart options.openStringMidiByLane = .ok os)
    (hmf : resolveMaxFret options.maxFret = .error msg) :
    convertSmfTrackToLaneChart parsedSmf trackIndex options =
      .error { code := .invalidOptions, message := msg } := by
  simp only [convertSmfTrackToLaneChart, hidx, hfind, hos, hmf, bind, Except.bind]

theorem convert_eq_resolved {parsedSmf : ParsedSmf} {trackIndex : JSNum}
    {options : ConvertOptions} {idx : ℕ} {track : ParsedSmfTrack}
    {os : OpenStringTableZ} {mf : Option ℤ}
    (hidx : parseTrackIndex trackIndex = some idx)
    (hfind : parsedSmf.tracks.find? (fun candidate => candidate.index = idx) = some track)
    (hos : resolveOpenStringChart options.openStringMidiByLane = .ok os)
    (hmf : resolveMaxFret options.maxFret = .ok mf) :
    convertSmfTrackToLaneChart parsedSmf trackIndex options =
      match convertTrackNotes track.index os mf 0 track.notes with
      | .error e => .error e
      | .ok notes =>
          .ok { bpm := parsedSmf.bpm, trackIndex := track.index, trackName := track.name,
                trackNoteCount := track.noteCount,
                loopDurationMs :=
                  ((deriveLoopDurationMsMidi (sortListBy chartNoteLE notes) : ℤ) : ℚ),
                notes := sortListBy chartNoteLE notes } := by
  simp only [convertSmfTrackToLaneChart, hidx, hfind, hos, hmf, bind, Except.bind,
    pure, Except.pure]
  cases hcn : convertTrackNotes track.index os mf 0 track.notes with
  | error e => rfl
  | ok notes => rfl

/-- C4: lane/fret resolution picks, among the four lanes, a pair with
`fret = midiNote - openString[lane]`, `0 ≤ fret ≤ maxFret`, minimizing the
fret; if no lane qualifies the whole conversion fails with
`NOTE_OUT_OF_RANGE`; and every note of every successful conversion has
`0 ≤ fret ≤ maxFret`. -/
theorem lane_fret_resolution_minimal_and_bounded :
    (∀ (midi : ℤ) (os : OpenStringTableZ) (mf : Option ℤ) (lane : Lane) (fret : ℤ),
        resolveLaneAndFret midi os mf = some (lane, fret) →
        fret = midi - os.get lane ∧ 0 ≤ fret ∧ fretExceedsMax fret mf = false ∧
        ∀ lane' : Lane, 0 ≤ midi - os.get lane' →
          fretExceedsMax (midi - os.get lane') mf = false → fret ≤ midi - os.get lane') ∧
    (∀ (midi : ℤ) (os : OpenStringTableZ) (mf : Option ℤ),
        resolveLaneAndFret midi os mf = none →
        ∀ lane : Lane, midi - os.get lane < 0 ∨
          fretExceedsMax (midi - os.get lane) mf = true) ∧
    (∀ (parsedSmf : ParsedSmf) (trackIndex : JSNum) (options : ConvertOptions)
        (idx : ℕ) (track : ParsedSmfTrack) (os : OpenStringTableZ) (mf : Option ℤ),
        parseTrackIndex trackIndex = some idx →
        parsedSmf.tracks.find? (fun candidate => candidate.index = idx) = some track →
        resolveOpenStringChart options.openStringMidiByLane = .ok os →
        resolveMaxFret options.maxFret = .ok mf →
        (∃ note ∈ track.notes, resolveLaneAndFret note.midi os mf = none) →
        ∃ msg, convertSmfTrackToLaneChart parsedSmf trackIndex options =
          .error { code := .noteOutOfRange, message := msg }) ∧
    (∀ (parsedSmf : ParsedSmf) (trackIndex : JSNum) (options : ConvertOptions)
        (chart : SmfTrackLaneChart),
        convertSmfTrackToLaneChart parsedSmf trackIndex options = .ok chart →
        ∃ mf, resolveMaxFret options.maxFret = .ok mf ∧
          ∀ note ∈ chart.notes, 0 ≤ note.fret ∧ fretExceedsMax note.fret mf = false) := by
  refine ⟨fun midi os mf lane fret h => resolveLaneAndFret_some h,
          fun midi os mf h => resolveLaneAndFret_none h, ?_, ?_⟩
  · intro parsedSmf trackIndex options idx track os mf hidx hfind hos hmf hbad
    obtain ⟨msg, hmsg⟩ :=
      @convertTrackNotes_out_of_range track.index os mf track.notes 0 hbad
    refine ⟨msg, ?_⟩
    rw [convert_eq_resolved hidx hfind hos hmf, hmsg]
  · intro parsedSmf trackIndex options chart h
    cases hidx : parseTrackIndex trackIndex with
    | none =>
      rw [convert_eq_badIndex hidx] at h
      exact absurd h (by simp)
    | some idx =>
      cases hfind : parsedSmf.tracks.find? (fun candidate => candidate.index = idx) with
      | none =>
        rw [convert_eq_missingTrack hidx hfind] at h
        exact absurd h (by simp)
      | some track =>
        cases hos : resolveOpenStringChart options.openStringMidiByLane with
        | error e =>
          rw [convert_eq_invalidOptions_os hidx hfind hos] at h
          exact absurd h (by simp)
        | ok os =>
          cases hmf : resolveMaxFret options.maxFret with
          | error e =>
            rw [convert_eq_invalidOptions_mf hidx hfind hos hmf] at h
            exact absurd h (by simp)
          | ok mf =>
            rw [convert_eq_resolved hidx hfind hos hmf] at h
            cases hcn : convertTrackNotes track.index os mf 0 track.notes with
            | error e =>
              rw [hcn] at h
              exact absurd h (by simp)
            | ok converted =>
              rw [hcn] at h
              simp only [Except.ok.injEq] at h
              refine ⟨mf, rfl, fun note hnote => ?_⟩
              rw [← h] at hnote
              simp only at hnote
              obtain ⟨sn, _, hres⟩ :=
                convertTrackNotes_ok track.notes 0 converted hcn note
                  (mem_sortListBy.mp hnote)
              obtain ⟨_, hnn, hok, _⟩ := resolveLaneAndFret_some hres
              exact ⟨hnn, hok⟩

/-- Witness for the C4 theorem: midi note 45 resolves to lane G, fret 2, the
minimal admissible fret under the default tuning. -/
theorem lane_fret_resolution_minimal_and_bounded_witness :
    resolveLaneAndFret 45 defaultOpenStringTableZ none = some (.G, 2) ∧
    ((2 : ℤ) = 45 - defaultOpenStringTableZ.get .G ∧ 0 ≤ (2 : ℤ) ∧
      fretExceedsMax 2 none = false ∧
      ∀ lane' : Lane, 0 ≤ 45 - defaultOpenStringTableZ.get lane' →
        fretExceedsMax (45 - defaultOpenStringTableZ.get lane') none = false →
        2 ≤ 45 - defaultOpenStringTableZ.get lane') := by
  have h : resolveLaneAndFret 45 defaultOpenStringTableZ none = some (.G, 2) := by decide
  exact ⟨h, lane_fret_resolution_minimal_and_bounded.1 45 defaultOpenStringTableZ none .G 2 h⟩

/-! ## Track-index and options validation (C8) -/

/-- C8: a `trackIndex` that is not a non-negative integer fails with
`TRACK_NOT_FOUND` (never `INVALID_OPTIONS`) and a message echoing the
received value; a valid index with no matching track also fails
`TRACK_NOT_FOUND`; invalid options (non-finite open-string override, or
non-finite or negative `maxFret`) fail with `INVALID_OPTIONS` carrying the
specific rule broken; and fractional `maxFret` values are floored rather
than rejected. -/
theorem track_index_and_options_validation :
    (∀ (parsedSmf : ParsedSmf) (trackIndex : JSNum) (options : ConvertOptions),
        parseTrackIndex trackIndex = none →
        convertSmfTrackToLaneChart parsedSmf trackIndex options =
          .error { code := .trackNotFound,
                   message := "Track index must be a non-negative integer. Received: " ++
                     jsNumToString trackIndex ++ "." }) ∧
    (∀ trackIndex : JSNum,
        parseTrackIndex trackIndex = none ↔
          (trackIndex = none ∨ ∃ q, trackIndex = some q ∧ (q.den ≠ 1 ∨ q < 0))) ∧
    (∀ (parsedSmf : ParsedSmf) (trackIndex : JSNum) (options : ConvertOptions) (idx : ℕ),
        parseTrackIndex trackIndex = some idx →
        parsedSmf.tracks.find? (fun candidate => candidate.index = idx) = none →
        convertSmfTrackToLaneChart parsedSmf trackIndex options =
          .error { code := .trackNotFound,
                   message := "Track index " ++ toString idx ++ " was not found." }) ∧
    (∀ (parsedSmf : ParsedSmf) (trackIndex : JSNum) (options : ConvertOptions)
        (idx : ℕ) (track : ParsedSmfTrack) (msg : String),
        parseTrackIndex trackIndex = some idx →
        parsedSmf.tracks.find? (fun candidate => candidate.index = idx) = some track →
        resolveOpenStringChart options.openStringMidiByLane = .error msg →
        convertSmfTrackToLaneChart parsedSmf trackIndex options =
          .error { code := .invalidOptions, message := msg }) ∧
    (∀ ov : OpenStringOverrides, ov.E = some none →
        resolveOpenStringChart ov = .error "openStringMidiByLane.E must be a finite number.") ∧
    (∀ (parsedSmf : ParsedSmf) (trackIndex : JSNum) (options : ConvertOptions)
        (idx : ℕ) (track : ParsedSmfTrack) (os : OpenStringTableZ) (msg : String),
        parseTrackIndex trackIndex = some idx →
        parsedSmf.tracks.find? (fun candidate => candidate.index = idx) = some track →
        resolveOpenStringChart options.openStringMidiByLane = .ok os →
        resolveMaxFret options.maxFret = .error msg →
        convertSmfTrackToLaneChart parsedSmf trackIndex options =
          .error { code := .invalidOptions, message := msg }) ∧
    (∀ v : ℚ, v < 0 → resolveMaxFret (some (some v)) = .error "maxFret must be >= 0.") ∧
    (resolveMaxFret (some none) = .error "maxFret must be a finite number.") ∧
    (∀ v : ℚ, 0 ≤ v → resolveMaxFret (some (some v)) = .ok (some ⌊v⌋)) := by
  refine ⟨fun parsedSmf trackIndex options hidx => convert_eq_badIndex hidx, ?_,
    fun parsedSmf trackIndex options idx hidx hfind => convert_eq_missingTrack hidx hfind,
    fun parsedSmf trackIndex options idx track msg hidx hfind hos =>
      convert_eq_invalidOptions_os hidx hfind hos, ?_,
    fun parsedSmf trackIndex options idx track os msg hidx hfind hos hmf =>
      convert_eq_invalidOptions_mf hidx hfind hos hmf, ?_, rfl, ?_⟩
  · intro trackIndex
    cases trackIndex with
    | none => simp [parseTrackIndex]
    | some q =>
      simp only [parseTrackIndex]
      by_cases hq : q.den = 1 ∧ 0 ≤ q
      · rw [if_pos hq]
        simp only [reduceCtorEq, false_iff]
        push_neg
        refine ⟨not_false, fun q' hq' => ?_⟩
        simp only [Option.some.injEq] at hq'
        rw [← hq']
        exact ⟨hq.1, hq.2⟩
      · rw [if_neg hq]
        simp only [true_iff]
        refine Or.inr ⟨q, rfl, ?_⟩
        rcases not_and_or.mp hq with hd | hn
        · exact Or.inl hd
        · exact Or.inr (not_le.mp hn)
  · intro ov hE
    unfold resolveOpenStringChart
    rw [hE]
    simp [resolveChartLaneValue, assertFiniteNumber, bind, Except.bind]
  · intro v hv
    simp only [resolveMaxFret, assertFiniteNumber, bind, Except.bind]
    rw [if_pos hv]
  · intro v hv
    simp only [resolveMaxFret, assertFiniteNumber, bind, Except.bind]
    rw [if_neg (not_lt.mpr hv)]

/-- Witness for the C8 theorem at concrete inputs. -/
theorem track_index_and_options_validation_witness :
    convertSmfTrackToLaneChart { bpm := 120, tracks := [] } none {} =
      .error { code := .trackNotFound,
               message := "Track index must be a non-negative integer. Received: " ++
                 jsNumToString none ++ "." } ∧
    ((0 : ℚ) ≤ 5/2 ∧ resolveMaxFret (some (some (5/2))) = .ok (some ⌊(5/2 : ℚ)⌋)) :=
  ⟨track_index_and_options_validation.1 { bpm := 120, tracks := [] } none {} rfl,
   by norm_num,
   track_index_and_options_validation.2.2.2.2.2.2.2.2 (5/2) (by norm_num)⟩

/-! ## Auto-miss sweep (C2) -/

theorem registerAll_fields :
    ∀ (evs : List ScoringEvent) (st : EngineState),
      (registerAll st evs).chart = st.chart ∧ (registerAll st evs).config = st.config ∧
      (registerAll st evs).nextLoopIndexByNote = st.nextLoopIndexByNote := by
  intro evs
  induction evs with
  | nil => exact fun st => ⟨rfl, rfl, rfl⟩
  | cons ev rest ih =>
    intro st
    have := ih (registerJudgement st ev.judgement)
    cases hj : ev.judgement <;>
      simp only [registerAll, hj, registerJudgement] at this ⊢ <;>
      exact this

theorem collectAutoMissesAux_eq (cfg : ScoringConfig) (L t adj : ℚ) :
    ∀ entries : List (InternalNote × ℕ),
      collectAutoMissesAux cfg L t adj entries =
        ((entries.map fun e => (autoMissForNote cfg L t adj e.1 e.2).1).join,
         entries.map fun e => (autoMissForNote cfg L t adj e.1 e.2).2) := by
  intro entries
  induction entries with
  | nil => simp [collectAutoMissesAux]
  | cons head rest ih =>
    obtain ⟨note, cursor⟩ := head
    simp [collectAutoMissesAux, ih]

theorem autoMissForNote_spec (cfg : ScoringConfig) (L t adj : ℚ) (note : InternalNote)
    (cursor : ℕ) (hL : 0 < L)
    (hfirst : occurrenceTimeMs L note cursor ≤ adj - cfg.timingWindowMs) :
    (autoMissForNote cfg L t adj note cursor).1.length =
      (⌊(adj - cfg.timingWindowMs - occurrenceTimeMs L note cursor) / L⌋ + 1).toNat ∧
    (((⌊(adj - cfg.timingWindowMs - occurrenceTimeMs L note cursor) / L⌋ + 1).toNat : ℤ) =
      ⌊(adj - cfg.timingWindowMs - occurrenceTimeMs L note cursor) / L⌋ + 1) ∧
    (autoMissForNote cfg L t adj note cursor).2 =
      cursor + (⌊(adj - cfg.timingWindowMs - occurrenceTimeMs L note cursor) / L⌋ + 1).toNat ∧
    ∀ (i : ℕ) (ev : ScoringEvent),
      (autoMissForNote cfg L t adj note cursor).1.get? i = some ev →
      ev.judgement = .Miss ∧ ev.source = .autoMiss ∧ ev.reason = .autoMiss ∧
      ev.note.loopIndex = cursor + i ∧
      ev.note.occurrenceTimeMs = occurrenceTimeMs L note (cursor + i) ∧
      ev.timingErrorMs = some (adj - occurrenceTimeMs L note (cursor + i)) := by
  have hcast : ((⌊(adj - cfg.timingWindowMs - occurrenceTimeMs L note cursor) / L⌋ +
      1).toNat : ℤ) = ⌊(adj - cfg.timingWindowMs - occurrenceTimeMs L note cursor) / L⌋ + 1 := by
    have hnum : 0 ≤ adj - cfg.timingWindowMs - occurrenceTimeMs L note cursor := by
      linarith
    have hdiv : 0 ≤ (adj - cfg.timingWindowMs - occurrenceTimeMs L note cursor) / L :=
      div_nonneg hnum (le_of_lt hL)
    have hfl : 0 ≤ ⌊(adj - cfg.timingWindowMs - occurrenceTimeMs L note cursor) / L⌋ :=
      Int.floor_nonneg.mpr hdiv
    exact Int.toNat_of_nonneg (by omega)
  unfold autoMissForNote
  rw [if_neg (not_lt.mpr hfirst)]
  refine ⟨by simp, hcast, rfl, fun i ev hev => ?_⟩
  simp only [List.get?_map] at hev
  cases hr : (List.range
      ((⌊(adj - cfg.timingWindowMs - occurrenceTimeMs L note cursor) / L⌋ + 1).toNat)).get? i with
  | none => rw [hr] at hev; simp at hev
  | some j =>
    rw [hr] at hev
    simp only [Option.map_some', Option.some.injEq] at hev
    have hj : j = i := by
      have := List.get?_eq_some.mp hr
      obtain ⟨hlt, hget⟩ := this
      rw [List.get_range] at hget
      exact hget.symm
    rw [← hev, hj]
    exact ⟨rfl, rfl, rfl, rfl, rfl, rfl⟩

/-- C2: for every note whose current-cursor occurrence lies at or before
`adjustedTimeMs - timingWindowMs`, the auto-miss sweep emits exactly
`floor((missThresholdTimeMs - firstOccurrenceTimeMs) / loopDurationMs) + 1`
sequential Miss events with source auto-miss, one per skipped occurrence
with its own occurrence time and timing error, and advances the cursor past
all of them; the sweep is applied note-by-note by `collectAutoMisses`, which
both `evaluate` and `advance` run; on the specification's scenario chart,
`advance(7200)` with untouched cursors emits exactly 4 Miss events with loop
indices 0, 1, 2, 3. -/
theorem auto_miss_sweep_emits_one_miss_per_skipped_occurrence :
    (∀ (cfg : ScoringConfig) (L t adj : ℚ) (note : InternalNote) (cursor : ℕ),
        0 < L → occurrenceTimeMs L note cursor ≤ adj - cfg.timingWindowMs →
        (autoMissForNote cfg L t adj note cursor).1.length =
          (⌊(adj - cfg.timingWindowMs - occurrenceTimeMs L note cursor) / L⌋ + 1).toNat ∧
        (((⌊(adj - cfg.timingWindowMs - occurrenceTimeMs L note cursor) / L⌋ +
            1).toNat : ℤ) =
          ⌊(adj - cfg.timingWindowMs - occurrenceTimeMs L note cursor) / L⌋ + 1) ∧
        (autoMissForNote cfg L t adj note cursor).2 =
          cursor +
            (⌊(adj - cfg.timingWindowMs - occurrenceTimeMs L note cursor) / L⌋ + 1).toNat ∧
        ∀ (i : ℕ) (ev : ScoringEvent),
          (autoMissForNote cfg L t adj note cursor).1.get? i = some ev →
          ev.judgement = .Miss ∧ ev.source = .autoMiss ∧ ev.reason = .autoMiss ∧
          ev.note.loopIndex = cursor + i ∧
          ev.note.occurrenceTimeMs = occurrenceTimeMs L note (cursor + i) ∧
          ev.timingErrorMs = some (adj - occurrenceTimeMs L note (cursor + i))) ∧
    (∀ (cfg : ScoringConfig) (L t adj : ℚ) (note : InternalNote) (cursor : ℕ),
        adj - cfg.timingWindowMs < occurrenceTimeMs L note cursor →
        autoMissForNote cfg L t adj note cursor = ([], cursor)) ∧
    (∀ (st : EngineState) (t adj : ℚ),
        (collectAutoMisses st t adj).1 =
          ((st.chart.notes.zip st.nextLoopIndexByNote).map fun e =>
            (autoMissForNote st.config st.chart.loopDurationMs t adj e.1 e.2).1).join ∧
        (collectAutoMisses st t adj).2.nextLoopIndexByNote =
          (st.chart.notes.zip st.nextLoopIndexByNote).map fun e =>
            (autoMissForNote st.config st.chart.loopDurationMs t adj e.1 e.2).2) ∧
    (∀ (st : EngineState) (t : ℚ),
        advance st t = collectAutoMisses st t (t + st.config.latencyOffsetMs)) ∧
    (∀ (st : EngineState) (input : ScoringInput), ∃ rest : List ScoringEvent,
        (evaluate st input).1 =
          (collectAutoMisses st input.evaluatedAtMs
            (input.evaluatedAtMs + st.config.latencyOffsetMs)).1 ++ rest) ∧
    ((createEngine { chart := scenarioChart }).map
        (fun st => (advance st 7200).1.map fun e => (e.judgement, e.source, e.note.loopIndex)) =
      .ok [(.Miss, .autoMiss, 0), (.Miss, .autoMiss, 1), (.Miss, .autoMiss, 2),
           (.Miss, .autoMiss, 3)]) := by
  refine ⟨fun cfg L t adj note cursor hL hfirst =>
      autoMissForNote_spec cfg L t adj note cursor hL hfirst,
    fun cfg L t adj note cursor hlate => ?_, fun st t adj => ?_, fun st t => rfl,
    fun st input => ?_, ?_⟩
  · unfold autoMissForNote
    rw [if_pos hlate]
  · constructor
    · rw [collectAutoMisses, collectAutoMissesAux_eq]
    · rw [collectAutoMisses, collectAutoMissesAux_eq, (registerAll_fields _ _).2.2]
  · simp only [evaluate]
    cases hc : findBestCandidate
        (collectAutoMisses st input.evaluatedAtMs
          (input.evaluatedAtMs + st.config.latencyOffsetMs)).2
        (input.evaluatedAtMs + st.config.latencyOffsetMs) input.lane with
    | none => exact ⟨[], by simp [hc]⟩
    | some candidate =>
      cases hp : input.pitchCents with
      | none =>
        simp only [hc, hp]
        exact ⟨_, rfl⟩
      | some pitch =>
        simp only [hc, hp]
        exact ⟨_, rfl⟩
  · have hengine : createEngine { chart := scenarioChart } = .ok scenarioState := by
      simp only [createEngine, scenarioChart, scenarioState, resolveOpenStringScoring,
        resolveScoringLaneValue, createScoringConfig, assertFinitePositive, assertFiniteNumber,
        normalizeChart, normalizeNotes, normalizeNote, parseLane, wrapTimeMs, jsMod, ratTrunc,
        toMidiNoteFromLaneAndFret, toCentsFromMidiNote, sortNotes, sortListBy, insertSortedBy,
        OpenStringTableQ.get, defaultOpenStringMidi, bind, Except.bind, Option.getD, Option.map]
      norm_num [sortListBy, insertSortedBy, List.replicate]
      decide
    rw [hengine]
    simp only [Except.map]
    have hfloor : ⌊(7200 - 80 - (1000 + 2000 * ((0 : ℕ) : ℚ))) / 2000⌋ = 3 := by
      norm_num
    simp only [advance, collectAutoMisses, scenarioState, collectAutoMissesAux,
      autoMissForNote, occurrenceTimeMs, List.zip, List.zipWith, createEvent]
    norm_num [hfloor, List.range_succ, registerAll, registerJudgement]
    simp [Function.comp, List.range_succ, show Int.toNat 4 = 4 from rfl]

/-- Witness for the C2 theorem on the scenario note at `advance(7200)`. -/
theorem auto_miss_sweep_emits_one_miss_per_skipped_occurrence_witness :
    ((0 : ℚ) < 2000 ∧
      occurrenceTimeMs 2000
        ({ id := "note-0"
           lane := .E
           timeMs := 1000
           durationMs := 120
           fret := some 0
           targetMidiNote := 28
           targetCents := 2800
           sourceOrder := 0 } : InternalNote) 0 ≤
        7200 - scenarioState.config.timingWindowMs) ∧
    (autoMissForNote scenarioState.config 2000 7200 7200
        ({ id := "note-0"
           lane := .E
           timeMs := 1000
           durationMs := 120
           fret := some 0
           targetMidiNote := 28
           targetCents := 2800
           sourceOrder := 0 } : InternalNote) 0).1.length =
      (⌊(7200 - scenarioState.config.timingWindowMs -
        occurrenceTimeMs 2000
          ({ id := "note-0"
             lane := .E
             timeMs := 1000
             durationMs := 120
             fret := some 0
             targetMidiNote := 28
             targetCents := 2800
             sourceOrder := 0 } : InternalNote) 0) / 2000⌋ + 1).toNat := by
  have h1 : (0 : ℚ) < 2000 := by norm_num
  have h2 : occurrenceTimeMs 2000
      ({ id := "note-0"
         lane := .E
         timeMs := 1000
         durationMs := 120
         fret := some 0
         targetMidiNote := 28
         targetCents := 2800
         sourceOrder := 0 } : InternalNote) 0 ≤
      7200 - scenarioState.config.timingWindowMs := by
    norm_num [occurrenceTimeMs, scenarioState]
  exact ⟨⟨h1, h2⟩,
    (auto_miss_sweep_emits_one_miss_per_skipped_occurrence.1 scenarioState.config 2000
      7200 7200 _ 0 h1 h2).1⟩

/-! ## Judgement windows and stats (C3) -/

theorem collectAutoMisses_config (st : EngineState) (t adj : ℚ) :
    (collectAutoMisses st t adj).2.config = st.config := by
  rw [collectAutoMisses]
  exact (registerAll_fields _ _).2.1

theorem collectAutoMisses_counts (st : EngineState) (t adj : ℚ) :
    (collectAutoMisses st t adj).2.chart = st.chart := by
  rw [collectAutoMisses]
  exact (registerAll_fields _ _).1

/-- C3: for every matched candidate with a finite pitch sample, the emitted
judgement is Perfect (reason perfect-window) iff both perfect windows hold;
otherwise Good (reason good-window) iff both normal windows hold; otherwise
Miss with reason pitch-window exactly when the pitch error exceeds its
window and reason timing-window otherwise; the judgement increments exactly
its own counter; and `getStats` reports `total = perfect + good + miss` and
`accuracy = (perfect + 0.5*good)/total`, with accuracy 0 when total is 0. -/
theorem judgement_windows_and_stats :
    (∀ (st : EngineState) (input : ScoringInput) (candidate : Candidate) (p : ℚ),
      findBestCandidate (collectAutoMisses st input.evaluatedAtMs
          (input.evaluatedAtMs + st.config.latencyOffsetMs)).2
        (input.evaluatedAtMs + st.config.latencyOffsetMs) input.lane = some candidate →
      input.pitchCents = some p →
      ∃ (ev : ScoringEvent) (st' : EngineState),
        evaluate st input =
          ((collectAutoMisses st input.evaluatedAtMs
            (input.evaluatedAtMs + st.config.latencyOffsetMs)).1 ++ [ev], st') ∧
        ev.pitchErrorCents = some (p - candidate.note.targetCents) ∧
        ((ev.judgement = .Perfect ∧ ev.reason = .perfectWindow) ↔
          (candidate.absTimingErrorMs ≤ st.config.perfectTimingWindowMs ∧
           |p - candidate.note.targetCents| ≤ st.config.perfectPitchWindowCents)) ∧
        (¬(candidate.absTimingErrorMs ≤ st.config.perfectTimingWindowMs ∧
           |p - candidate.note.targetCents| ≤ st.config.perfectPitchWindowCents) →
          ((ev.judgement = .Good ∧ ev.reason = .goodWindow) ↔
            (candidate.absTimingErrorMs ≤ st.config.timingWindowMs ∧
             |p - candidate.note.targetCents| ≤ st.config.pitchWindowCents))) ∧
        (¬(candidate.absTimingErrorMs ≤ st.config.perfectTimingWindowMs ∧
           |p - candidate.note.targetCents| ≤ st.config.perfectPitchWindowCents) →
         ¬(candidate.absTimingErrorMs ≤ st.config.timingWindowMs ∧
           |p - candidate.note.targetCents| ≤ st.config.pitchWindowCents) →
          (ev.judgement = .Miss ∧
           ((ev.reason = .pitchWindow) ↔
             |p - candidate.note.targetCents| > st.config.pitchWindowCents) ∧
           ((ev.reason = .timingWindow) ↔
             ¬(|p - candidate.note.targetCents| > st.config.pitchWindowCents)))) ∧
        st'.perfectCount =
          (collectAutoMisses st input.evaluatedAtMs
            (input.evaluatedAtMs + st.config.latencyOffsetMs)).2.perfectCount +
            (if ev.judgement = .Perfect then 1 else 0) ∧
        st'.goodCount =
          (collectAutoMisses st input.evaluatedAtMs
            (input.evaluatedAtMs + st.config.latencyOffsetMs)).2.goodCount +
            (if ev.judgement = .Good then 1 else 0) ∧
        st'.missCount =
          (collectAutoMisses st input.evaluatedAtMs
            (input.evaluatedAtMs + st.config.latencyOffsetMs)).2.missCount +
            (if ev.judgement = .Miss then 1 else 0)) ∧
    (∀ st : EngineState,
        (getStats st).perfect = st.perfectCount ∧ (getStats st).good = st.goodCount ∧
        (getStats st).miss = st.missCount ∧
        (getStats st).total = st.perfectCount + st.goodCount + st.missCount ∧
        ((getStats st).total = 0 → (getStats st).accuracy = 0) ∧
        ((getStats st).total ≠ 0 → (getStats st).accuracy =
          ((st.perfectCount : ℚ) + (st.goodCount : ℚ) * (1 / 2)) /
            ((st.perfectCount + st.goodCount + st.missCount : ℕ) : ℚ))) := by
  constructor
  · intro st input candidate p hc hp
    have hcfg : (collectAutoMisses st input.evaluatedAtMs
        (input.evaluatedAtMs + st.config.latencyOffsetMs)).2.config = st.config :=
      collectAutoMisses_config st input.evaluatedAtMs
        (input.evaluatedAtMs + st.config.latencyOffsetMs)
    simp only [evaluate, hc, hp, hcfg]
    by_cases hperf : candidate.absTimingErrorMs ≤ st.config.perfectTimingWindowMs ∧
        |p - candidate.note.targetCents| ≤ st.config.perfectPitchWindowCents
    · rw [if_pos hperf]
      refine ⟨_, _, rfl, rfl, ?_, fun hnp => absurd hperf hnp, fun hnp => absurd hperf hnp,
        by simp [registerJudgement, createEvent], by simp [registerJudgement, createEvent], by simp [registerJudgement, createEvent]⟩
      simp only [true_and]
      exact ⟨fun _ => hperf, fun _ => ⟨rfl, rfl⟩⟩
    · rw [if_neg hperf]
      by_cases hgood : candidate.absTimingErrorMs ≤ st.config.timingWindowMs ∧
          |p - candidate.note.targetCents| ≤ st.config.pitchWindowCents
      · rw [if_pos hgood]
        refine ⟨_, _, rfl, rfl, ?_, fun _ => ?_, fun _ hng => absurd hgood hng,
          by simp [registerJudgement, createEvent], by simp [registerJudgement, createEvent],
          by simp [registerJudgement, createEvent]⟩
        · constructor
          · rintro ⟨hj, _⟩
            exact absurd hj (by simp [createEvent])
          · intro hc2
            exact absurd hc2 hperf
        · simp only [true_and]
          exact ⟨fun _ => hgood, fun _ => ⟨rfl, rfl⟩⟩
      · by_cases hpitch : |p - candidate.note.targetCents| > st.config.pitchWindowCents
        · rw [if_neg hgood, if_pos hpitch]
          refine ⟨_, _, rfl, rfl, ?_, fun _ => ?_, fun _ _ => ?_,
            by simp [registerJudgement, createEvent], by simp [registerJudgement, createEvent],
            by simp [registerJudgement, createEvent]⟩
          · constructor
            · rintro ⟨hj, _⟩
              exact absurd hj (by simp [createEvent])
            · intro hc2
              exact absurd hc2 hperf
          · constructor
            · rintro ⟨hj, _⟩
              exact absurd hj (by simp [createEvent])
            · intro hc2
              exact absurd hc2 hgood
          · refine ⟨rfl, ⟨fun _ => hpitch, fun _ => rfl⟩, ?_⟩
            constructor
            · intro hr
              exact absurd hr (by simp [createEvent])
            · intro hnp2
              exact absurd hpitch hnp2
        · rw [if_neg hgood, if_neg hpitch]
          refine ⟨_, _, rfl, rfl, ?_, fun _ => ?_, fun _ _ => ?_,
            by simp [registerJudgement, createEvent], by simp [registerJudgement, createEvent],
            by simp [registerJudgement, createEvent]⟩
          · constructor
            · rintro ⟨hj, _⟩
              exact absurd hj (by simp [createEvent])
            · intro hc2
              exact absurd hc2 hperf
          · constructor
            · rintro ⟨hj, _⟩
              exact absurd hj (by simp [createEvent])
            · intro hc2
              exact absurd hc2 hgood
          · refine ⟨rfl, ?_, ⟨fun _ => hpitch, fun _ => rfl⟩⟩
            constructor
            · intro hr
              exact absurd hr (by simp [createEvent])
            · intro hp2
              exact absurd hp2 hpitch
  · intro st
    refine ⟨rfl, rfl, rfl, rfl, fun h => ?_, fun h => ?_⟩
    · simp only [getStats] at h ⊢
      rw [if_pos h]
    · simp only [getStats] at h ⊢
      rw [if_neg h]

/-- Witness for the C3 theorem: the scenario's Perfect hit at 1000 ms with
pitch 2800 cents. -/
theorem judgement_windows_and_stats_witness :
    ∃ (ev : ScoringEvent) (st' : EngineState),
      evaluate scenarioState { evaluatedAtMs := 1000, pitchCents := some 2800, lane := some .E } =
        ((collectAutoMisses scenarioState 1000
          (1000 + scenarioState.config.latencyOffsetMs)).1 ++ [ev], st') ∧
      ev.judgement = .Perfect ∧ ev.reason = .perfectWindow := by
  have hc : findBestCandidate (collectAutoMisses scenarioState 1000
        (1000 + scenarioState.config.latencyOffsetMs)).2
      (1000 + scenarioState.config.latencyOffsetMs) (some .E) =
      some { noteIndex := 0
             note := { id := "note-0"
                       lane := .E
                       timeMs := 1000
                       durationMs := 120
                       fret := some 0
                       targetMidiNote := 28
                       targetCents := 2800
                       sourceOrder := 0 }
             loopIndex := 0
             occurrenceTimeMs := 1000
             timingErrorMs := 0
             absTimingErrorMs := 0 } := by
    norm_num [scenarioState, collectAutoMisses, collectAutoMissesAux, autoMissForNote,
      occurrenceTimeMs, registerAll, findBestCandidate, findBestAux, laneMatches, candidateAt,
      betterCandidate, List.zip, List.zipWith]
  obtain ⟨ev, st', heq, _, hiff, _, _, _⟩ :=
    judgement_windows_and_stats.1 scenarioState
      { evaluatedAtMs := 1000, pitchCents := some 2800, lane := some .E } _ 2800 hc rfl
  refine ⟨ev, st', heq, ?_⟩
  have hcond : (0 : ℚ) ≤ scenarioState.config.perfectTimingWindowMs ∧
      |(2800 : ℚ) - 2800| ≤ scenarioState.config.perfectPitchWindowCents := by
    norm_num [scenarioState]
  exact hiff.mpr hcond

/-! ## Best-candidate selection (C1) -/

theorem lexLe_refl (c : Candidate) : lexLe c c :=
  Or.inr ⟨rfl, Or.inr ⟨rfl, le_refl _⟩⟩

theorem lexLe_trans {a b c : Candidate} (hab : lexLe a b) (hbc : lexLe b c) : lexLe a c := by
  unfold lexLe at *
  rcases hab with h1 | ⟨h1, h2⟩
  · rcases hbc with h3 | ⟨h3, _⟩
    · exact Or.inl (lt_trans h1 h3)
    · exact Or.inl (h3 ▸ h1)
  · rcases hbc with h3 | ⟨h3, h4⟩
    · exact Or.inl (h1 ▸ h3)
    · refine Or.inr ⟨h1.trans h3, ?_⟩
      rcases h2 with h2 | ⟨h2, h5⟩
      · rcases h4 with h4 | ⟨h4, _⟩
        · exact Or.inl (lt_trans h2 h4)
        · exact Or.inl (h4 ▸ h2)
      · rcases h4 with h4 | ⟨h4, h6⟩
        · exact Or.inl (h2 ▸ h4)
        · exact Or.inr ⟨h2.trans h4, le_trans h5 h6⟩

theorem betterCandidate_or (b c : Candidate) :
    betterCandidate b c = b ∨ betterCandidate b c = c := by
  unfold betterCandidate
  split_ifs <;> simp

theorem betterCandidate_lexLe_left (b c : Candidate) : lexLe (betterCandidate b c) b := by
  unfold betterCandidate
  split_ifs with h1 h2 h3 h4
  · exact Or.inl h1
  · exact lexLe_refl b
  · refine Or.inr ⟨?_, Or.inl h3⟩
    simp only [gt_iff_lt, not_lt] at h1 h2
    linarith
  · refine Or.inr ⟨?_, Or.inr ⟨h4.1, le_of_lt h4.2⟩⟩
    simp only [gt_iff_lt, not_lt] at h1 h2
    linarith
  · exact lexLe_refl b

theorem betterCandidate_lexLe_right (b c : Candidate) : lexLe (betterCandidate b c) c := by
  unfold betterCandidate
  split_ifs with h1 h2 h3 h4
  · exact lexLe_refl c
  · exact Or.inl h2
  · exact lexLe_refl c
  · exact lexLe_refl c
  · have habs : b.absTimingErrorMs = c.absTimingErrorMs := by
      simp only [gt_iff_lt, not_lt] at h1 h2
      linarith
    refine Or.inr ⟨habs, ?_⟩
    have hocc : b.occurrenceTimeMs ≤ c.occurrenceTimeMs := not_lt.mp h3
    rcases lt_or_eq_of_le hocc with hocc | hocc
    · exact Or.inl hocc
    · refine Or.inr ⟨hocc, ?_⟩
      by_contra hso
      exact h4 ⟨hocc.symm, not_le.mp hso⟩

theorem eligibleIn_cons {cfg : ScoringConfig} {L adj : ℚ} {lf : Option Lane}
    {e : InternalNote × ℕ} {rest : List (InternalNote × ℕ)} {start : ℕ} {c : Candidate} :
    eligibleIn cfg L adj lf (e :: rest) start c ↔
      ((laneMatches lf e.1 = true ∧ c = candidateAt L adj start e.1 e.2 ∧
        c.absTimingErrorMs ≤ cfg.timingWindowMs) ∨
       eligibleIn cfg L adj lf rest (start + 1) c) := by
  constructor
  · rintro ⟨j, note, cursor, hget, hlane, hc, hwin⟩
    cases j with
    | zero =>
      simp only [List.get?] at hget
      obtain rfl : e = (note, cursor) := by
        simpa using hget
      exact Or.inl ⟨hlane, by simpa using hc, hwin⟩
    | succ j' =>
      simp only [List.get?] at hget
      refine Or.inr ⟨j', note, cursor, hget, hlane, ?_, hwin⟩
      rw [hc]
      congr 1
      omega
  · rintro (⟨hlane, hc, hwin⟩ | ⟨j, note, cursor, hget, hlane, hc, hwin⟩)
    · exact ⟨0, e.1, e.2, by simp, hlane, by simpa using hc, hwin⟩
    · refine ⟨j + 1, note, cursor, by simpa using hget, hlane, ?_, hwin⟩
      rw [hc]
      congr 1
      omega

set_option maxHeartbeats 400000 in
theorem findBestAux_none_iff (cfg : ScoringConfig) (L adj : ℚ) (lf : Option Lane) :
    ∀ (entries : List (InternalNote × ℕ)) (start : ℕ) (best : Option Candidate),
      findBestAux cfg L adj lf start entries best = none ↔
      (best = none ∧ ∀ c, ¬eligibleIn cfg L adj lf entries start c) := by
  intro entries
  induction entries with
  | nil =>
    intro start best
    simp only [findBestAux]
    constructor
    · intro h
      refine ⟨h, fun c hc => ?_⟩
      obtain ⟨j, note, cursor, hget, _⟩ := hc
      simp at hget
    · exact fun h => h.1
  | cons e rest ih =>
    intro start best
    obtain ⟨note, cursor⟩ := e
    by_cases hlane : laneMatches lf note
    · by_cases hwin : (candidateAt L adj start note cursor).absTimingErrorMs >
          cfg.timingWindowMs
      · have heq : findBestAux cfg L adj lf start ((note, cursor) :: rest) best =
            findBestAux cfg L adj lf (start + 1) rest best := by
          simp only [findBestAux, if_pos hlane, if_pos hwin]
        rw [heq, ih]
        constructor
        · rintro ⟨hb, hall⟩
          refine ⟨hb, fun c hc => ?_⟩
          rcases eligibleIn_cons.mp hc with ⟨_, hceq, hcw⟩ | hc'
          · rw [hceq] at hcw
            exact absurd hcw (not_le.mpr hwin)
          · exact hall c hc'
        · rintro ⟨hb, hall⟩
          exact ⟨hb, fun c hc => hall c (eligibleIn_cons.mpr (Or.inr hc))⟩
      · have hwin' : (candidateAt L adj start note cursor).absTimingErrorMs ≤
            cfg.timingWindowMs := not_lt.mp hwin
        have helig : eligibleIn cfg L adj lf ((note, cursor) :: rest) start
            (candidateAt L adj start note cursor) :=
          eligibleIn_cons.mpr (Or.inl ⟨hlane, rfl, hwin'⟩)
        cases best with
        | none =>
          have heq : findBestAux cfg L adj lf start ((note, cursor) :: rest) none =
              findBestAux cfg L adj lf (start + 1) rest
                (some (candidateAt L adj start note cursor)) := by
            simp only [findBestAux, if_pos hlane, if_neg hwin]
          rw [heq, ih]
          constructor
          · rintro ⟨hb, _⟩
            exact absurd hb (by simp)
          · rintro ⟨_, hall⟩
            exact absurd helig (hall _)
        | some b =>
          have heq : findBestAux cfg L adj lf start ((note, cursor) :: rest) (some b) =
              findBestAux cfg L adj lf (start + 1) rest
                (some (betterCandidate b (candidateAt L adj start note cursor))) := by
            simp only [findBestAux, if_pos hlane, if_neg hwin]
          rw [heq, ih]
          constructor
          · rintro ⟨hb, _⟩
            exact absurd hb (by simp)
          · rintro ⟨hb, _⟩
            exact absurd hb (by simp)
    · have heq : findBestAux cfg L adj lf start ((note, cursor) :: rest) best =
          findBestAux cfg L adj lf (start + 1) rest best := by
        simp only [findBestAux, if_neg hlane]
      rw [heq, ih]
      constructor
      · rintro ⟨hb, hall⟩
        refine ⟨hb, fun c hc => ?_⟩
        rcases eligibleIn_cons.mp hc with ⟨hclane, _⟩ | hc'
        · exact absurd hclane (by simpa using hlane)
        · exact hall c hc'
      · rintro ⟨hb, hall⟩
        exact ⟨hb, fun c hc => hall c (eligibleIn_cons.mpr (Or.inr hc))⟩


set_option maxHeartbeats 1000000 in
theorem findBestAux_some_spec (cfg : ScoringConfig) (L adj : ℚ) (lf : Option Lane) :
    ∀ (entries : List (InternalNote × ℕ)) (start : ℕ) (best : Option Candidate)
      (r : Candidate),
      findBestAux cfg L adj lf start entries best = some r →
      (best = some r ∨ eligibleIn cfg L adj lf entries start r) ∧
      (∀ b, best = some b → lexLe r b) ∧
      (∀ c, eligibleIn cfg L adj lf entries start c → lexLe r c) := by
  intro entries
  induction entries with
  | nil =>
    intro start best r h
    simp only [findBestAux] at h
    refine ⟨Or.inl h, fun b hb => ?_, fun c hc => ?_⟩
    · rw [h] at hb
      simp only [Option.some.injEq] at hb
      rw [hb]
      exact lexLe_refl b
    · obtain ⟨j, note, cursor, hget, _⟩ := hc
      simp at hget
  | cons e rest ih =>
    intro start best r h
    obtain ⟨note, cursor⟩ := e
    by_cases hlane : laneMatches lf note
    · by_cases hwin : (candidateAt L adj start note cursor).absTimingErrorMs >
          cfg.timingWindowMs
      · have heq : findBestAux cfg L adj lf start ((note, cursor) :: rest) best =
            findBestAux cfg L adj lf (start + 1) rest best := by
          simp only [findBestAux, if_pos hlane, if_pos hwin]
        rw [heq] at h
        obtain ⟨h1, h2, h3⟩ := ih (start + 1) best r h
        refine ⟨?_, h2, fun c hc => ?_⟩
        · rcases h1 with h1 | h1
          · exact Or.inl h1
          · exact Or.inr (eligibleIn_cons.mpr (Or.inr h1))
        · rcases eligibleIn_cons.mp hc with ⟨_, hceq, hcw⟩ | hc'
          · rw [hceq] at hcw
            exact absurd hcw (not_le.mpr hwin)
          · exact h3 c hc'
      · have hwinle : (candidateAt L adj start note cursor).absTimingErrorMs ≤
            cfg.timingWindowMs := not_lt.mp hwin
        cases best with
        | none =>
          have heq : findBestAux cfg L adj lf start ((note, cursor) :: rest) none =
              findBestAux cfg L adj lf (start + 1) rest
                (some (candidateAt L adj start note cursor)) := by
            simp only [findBestAux, if_pos hlane, if_neg hwin]
          rw [heq] at h
          obtain ⟨h1, h2, h3⟩ :=
            ih (start + 1) (some (candidateAt L adj start note cursor)) r h
          have hhead : lexLe r (candidateAt L adj start note cursor) := h2 _ rfl
          refine ⟨?_, by simp, fun c hc => ?_⟩
          · rcases h1 with h1 | h1
            · simp only [Option.some.injEq] at h1
              exact Or.inr (eligibleIn_cons.mpr (Or.inl ⟨hlane, h1.symm,
                h1 ▸ hwinle⟩))
            · exact Or.inr (eligibleIn_cons.mpr (Or.inr h1))
          · rcases eligibleIn_cons.mp hc with ⟨_, hceq, _⟩ | hc'
            · rw [hceq]
              exact hhead
            · exact h3 c hc'
        | some b =>
          have heq : findBestAux cfg L adj lf start ((note, cursor) :: rest) (some b) =
              findBestAux cfg L adj lf (start + 1) rest
                (some (betterCandidate b (candidateAt L adj start note cursor))) := by
            simp only [findBestAux, if_pos hlane, if_neg hwin]
          rw [heq] at h
          obtain ⟨h1, h2, h3⟩ :=
            ih (start + 1) (some (betterCandidate b (candidateAt L adj start note cursor))) r h
          have hnb : lexLe r (betterCandidate b (candidateAt L adj start note cursor)) :=
            h2 _ rfl
          refine ⟨?_, fun b' hb' => ?_, fun c hc => ?_⟩
          · rcases h1 with h1 | h1
            · simp only [Option.some.injEq] at h1
              rcases betterCandidate_or b (candidateAt L adj start note cursor) with hor | hor
              · exact Or.inl (by rw [← h1, hor])
              · refine Or.inr (eligibleIn_cons.mpr (Or.inl ⟨hlane, ?_, ?_⟩))
                · rw [← h1, hor]
                · rw [← h1, hor]
                  exact hwinle
            · exact Or.inr (eligibleIn_cons.mpr (Or.inr h1))
          · simp only [Option.some.injEq] at hb'
            rw [← hb']
            exact lexLe_trans hnb (betterCandidate_lexLe_left b _)
          · rcases eligibleIn_cons.mp hc with ⟨_, hceq, _⟩ | hc'
            · rw [hceq]
              exact lexLe_trans hnb (betterCandidate_lexLe_right b _)
            · exact h3 c hc'
    · have heq : findBestAux cfg L adj lf start ((note, cursor) :: rest) best =
          findBestAux cfg L adj lf (start + 1) rest best := by
        simp only [findBestAux, if_neg hlane]
      rw [heq] at h
      obtain ⟨h1, h2, h3⟩ := ih (start + 1) best r h
      refine ⟨?_, h2, fun c hc => ?_⟩
      · rcases h1 with h1 | h1
        · exact Or.inl h1
        · exact Or.inr (eligibleIn_cons.mpr (Or.inr h1))
      · rcases eligibleIn_cons.mp hc with ⟨hclane, _⟩ | hc'
        · exact absurd hclane (by simpa using hlane)
        · exact h3 c hc'

theorem findBestCandidate_none_iff (st : EngineState) (adj : ℚ) (lf : Option Lane) :
    findBestCandidate st adj lf = none ↔ ∀ c, ¬eligible st adj lf c := by
  rw [findBestCandidate, findBestAux_none_iff]
  simp only [true_and]
  rfl

theorem findBestCandidate_some_spec {st : EngineState} {adj : ℚ} {lf : Option Lane}
    {c : Candidate} (h : findBestCandidate st adj lf = some c) :
    eligible st adj lf c ∧ ∀ c', eligible st adj lf c' → lexLe c c' := by
  obtain ⟨h1, _, h3⟩ := findBestAux_some_spec st.config st.chart.loopDurationMs adj lf
    (st.chart.notes.zip st.nextLoopIndexByNote) 0 none c h
  rcases h1 with h1 | h1
  · exact absurd h1 (by simp)
  · exact ⟨h1, fun c' hc' => h3 c' hc'⟩

theorem registerJudgement_cursors (st : EngineState) (j : Judgement) :
    (registerJudgement st j).nextLoopIndexByNote = st.nextLoopIndexByNote := by
  cases j <;> rfl

theorem autoMissForNote_all_miss (cfg : ScoringConfig) (L t adj : ℚ)
    (note : InternalNote) (cursor : ℕ) :
    ∀ ev ∈ (autoMissForNote cfg L t adj note cursor).1,
      ev.source = .autoMiss ∧ ev.judgement = .Miss := by
  intro ev hev
  unfold autoMissForNote at hev
  by_cases h : occurrenceTimeMs L note cursor > adj - cfg.timingWindowMs
  · rw [if_pos h] at hev
    simp at hev
  · rw [if_neg h] at hev
    simp only [List.mem_map] at hev
    obtain ⟨offset, _, rfl⟩ := hev
    exact ⟨rfl, rfl⟩

theorem collectAutoMisses_all_miss (st : EngineState) (t adj : ℚ) :
    ∀ ev ∈ (collectAutoMisses st t adj).1,
      ev.source = .autoMiss ∧ ev.judgement = .Miss := by
  intro ev hev
  rw [collectAutoMisses, collectAutoMissesAux_eq] at hev
  simp only [List.mem_join, List.mem_map] at hev
  obtain ⟨l, ⟨entry, _, rfl⟩, hev⟩ := hev
  exact autoMissForNote_all_miss st.config st.chart.loopDurationMs t adj entry.1 entry.2
    ev hev

/-- C1: on every `evaluate` call, the matched candidate — after the auto-miss
sweep — is an eligible note occurrence (its next unresolved occurrence lies
within `timingWindowMs` of the latency-adjusted time, respecting the lane
filter) that minimizes `|timingErrorMs|` with ties broken by earliest
`occurrenceTimeMs` and then smallest `sourceOrder`; its cursor is advanced to
`loopIndex + 1` regardless of the judgement outcome; and when no candidate
exists, `evaluate` returns exactly the auto-miss events (possibly none), all
of which are auto-miss Misses. -/
theorem evaluate_selects_lexicographically_best_candidate :
    (∀ (st : EngineState) (input : ScoringInput),
      findBestCandidate (collectAutoMisses st input.evaluatedAtMs
          (input.evaluatedAtMs + st.config.latencyOffsetMs)).2
        (input.evaluatedAtMs + st.config.latencyOffsetMs) input.lane = none →
      evaluate st input = collectAutoMisses st input.evaluatedAtMs
        (input.evaluatedAtMs + st.config.latencyOffsetMs) ∧
      (∀ c, ¬eligible (collectAutoMisses st input.evaluatedAtMs
          (input.evaluatedAtMs + st.config.latencyOffsetMs)).2
        (input.evaluatedAtMs + st.config.latencyOffsetMs) input.lane c) ∧
      (∀ ev ∈ (evaluate st input).1, ev.source = .autoMiss ∧ ev.judgement = .Miss)) ∧
    (∀ (st : EngineState) (input : ScoringInput) (c : Candidate),
      findBestCandidate (collectAutoMisses st input.evaluatedAtMs
          (input.evaluatedAtMs + st.config.latencyOffsetMs)).2
        (input.evaluatedAtMs + st.config.latencyOffsetMs) input.lane = some c →
      eligible (collectAutoMisses st input.evaluatedAtMs
          (input.evaluatedAtMs + st.config.latencyOffsetMs)).2
        (input.evaluatedAtMs + st.config.latencyOffsetMs) input.lane c ∧
      (∀ c', eligible (collectAutoMisses st input.evaluatedAtMs
          (input.evaluatedAtMs + st.config.latencyOffsetMs)).2
        (input.evaluatedAtMs + st.config.latencyOffsetMs) input.lane c' → lexLe c c') ∧
      (evaluate st input).2.nextLoopIndexByNote[c.noteIndex]? = some (c.loopIndex + 1)) := by
  constructor
  · intro st input hc
    have heval : evaluate st input = collectAutoMisses st input.evaluatedAtMs
        (input.evaluatedAtMs + st.config.latencyOffsetMs) := by
      simp only [evaluate, hc]
    refine ⟨heval, (findBestCandidate_none_iff _ _ _).mp hc, fun ev hev => ?_⟩
    rw [heval] at hev
    exact collectAutoMisses_all_miss st input.evaluatedAtMs
      (input.evaluatedAtMs + st.config.latencyOffsetMs) ev hev
  · intro st input c hc
    obtain ⟨helig, hmin⟩ := findBestCandidate_some_spec hc
    refine ⟨helig, hmin, ?_⟩
    obtain ⟨j, note, cursor, hget, _, hceq, _⟩ := helig
    have hidx : c.noteIndex = j := by
      rw [hceq]
      simp [candidateAt]
    have hjlen : c.noteIndex < (collectAutoMisses st input.evaluatedAtMs
        (input.evaluatedAtMs + st.config.latencyOffsetMs)).2.nextLoopIndexByNote.length := by
      obtain ⟨hj, _⟩ := List.get?_eq_some.mp hget
      rw [List.length_zip] at hj
      omega
    cases hp : input.pitchCents with
    | none =>
      have : (evaluate st input).2.nextLoopIndexByNote =
          (collectAutoMisses st input.evaluatedAtMs
            (input.evaluatedAtMs + st.config.latencyOffsetMs)).2.nextLoopIndexByNote.set
            c.noteIndex (c.loopIndex + 1) := by
        simp only [evaluate, hc, hp, registerJudgement_cursors]
      rw [this]
      exact List.getElem?_set_eq_of_lt _ hjlen
    | some p =>
      have : (evaluate st input).2.nextLoopIndexByNote =
          (collectAutoMisses st input.evaluatedAtMs
            (input.evaluatedAtMs + st.config.latencyOffsetMs)).2.nextLoopIndexByNote.set
            c.noteIndex (c.loopIndex + 1) := by
        simp only [evaluate, hc, hp, registerJudgement_cursors]
      rw [this]
      exact List.getElem?_set_eq_of_lt _ hjlen

/-- Witness for the C1 theorem: the scenario's candidate at 1000 ms is
selected and its cursor advanced to loop index 1. -/
theorem evaluate_selects_lexicographically_best_candidate_witness :
    ∃ c : Candidate,
      findBestCandidate (collectAutoMisses scenarioState 1000
          (1000 + scenarioState.config.latencyOffsetMs)).2
        (1000 + scenarioState.config.latencyOffsetMs) (some Lane.E) = some c ∧
      eligible (collectAutoMisses scenarioState 1000
          (1000 + scenarioState.config.latencyOffsetMs)).2
        (1000 + scenarioState.config.latencyOffsetMs) (some Lane.E) c ∧
      (evaluate scenarioState
        { evaluatedAtMs := 1000, pitchCents := some 2800, lane := some .E
          }).2.nextLoopIndexByNote[c.noteIndex]? = some (c.loopIndex + 1) := by
  have hc : findBestCandidate (collectAutoMisses scenarioState 1000
        (1000 + scenarioState.config.latencyOffsetMs)).2
      (1000 + scenarioState.config.latencyOffsetMs) (some Lane.E) =
      some { noteIndex := 0
             note := { id := "note-0"
                       lane := .E
                       timeMs := 1000
                       durationMs := 120
                       fret := some 0
                       targetMidiNote := 28
                       targetCents := 2800
                       sourceOrder := 0 }
             loopIndex := 0
             occurrenceTimeMs := 1000
             timingErrorMs := 0
             absTimingErrorMs := 0 } := by
    norm_num [scenarioState, collectAutoMisses, collectAutoMissesAux, autoMissForNote,
      occurrenceTimeMs, registerAll, findBestCandidate, findBestAux, laneMatches, candidateAt,
      betterCandidate, List.zip, List.zipWith]
  obtain ⟨helig, _, hcursor⟩ :=
    evaluate_selects_lexicographically_best_candidate.2 scenarioState
      { evaluatedAtMs := 1000, pitchCents := some 2800, lane := some .E } _ hc
  exact ⟨_, hc, helig, hcursor⟩

end Rifflane
